import Mathlib

/-!
Verification development for the agent episode store: a shallow embedding of
the episode data model (`pkg/models/episode.py`) and of the SQLite storage
engine (`pkg/storage/sqlite.py`) — creation with aggregate computation,
persistence as rows with JSON-encoded step/metadata columns, filtered listing,
counting, replay, positional diff and bulk export — together with theorems
settling the specified properties of those operations.

Modelling conventions, fixed throughout:
* Python `int` fields constrained `ge=0` become `ℕ`; unconstrained deltas `ℤ`.
* Python `float` currency amounts become `ℚ`; `round(x, 6)` becomes `round6`,
  round-half-to-even at six decimal places.
* `datetime` values are carried as their ISO-8601 strings (the storage layer
  persists `isoformat()` text and SQLite compares those TEXT values bytewise).
* JSON values stored in TEXT columns are carried as `Json` trees; a column's
  text content is `jsonDumps` of the tree, which mirrors Python `json.dumps`
  with its default separators, so SQL `LIKE` filters run over `jsonDumps`.
* The `episodes` table is a `Store`: the list of its rows in insertion order.
  `ORDER BY started_at DESC` is modelled as a stable descending insertion sort
  on the bytewise string order, ties keeping insertion order.
-/

/-- Bytewise (code-point lexicographic) comparison of character lists, the
model of SQLite's ordering of TEXT values. -/
def charListLe : List Char → List Char → Bool
  | [], _ => true
  | _ :: _, [] => false
  | a :: as, b :: bs => if a = b then charListLe as bs else decide (a < b)

/-- Bytewise string order: `a` sorts before or equal to `b`. -/
def strLeB (a b : String) : Bool := charListLe a.data b.data

/-- Round-half-to-even of a rational to an integer: the behaviour of Python's
builtin `round` at ties. With `/` and `%` the euclidean division and
remainder and the denominator positive, `f` is the floor of `q` and
`rem / den` its fractional part, compared against one half. -/
def rhe (q : ℚ) : ℤ :=
  if 2 * (q.num % (q.den : ℤ)) < (q.den : ℤ) then q.num / (q.den : ℤ)
  else if (q.den : ℤ) < 2 * (q.num % (q.den : ℤ)) then q.num / (q.den : ℤ) + 1
  else if (q.num / (q.den : ℤ)) % 2 = 0 then q.num / (q.den : ℤ)
  else q.num / (q.den : ℤ) + 1

/-- Python's `round(x, 6)`: scale by `10^6`, round half to even, scale back. -/
def round6 (q : ℚ) : ℚ := (rhe (q * 1000000) : ℚ) / 1000000

/-! ## JSON values

`Json`, `JsonArr` and `JsonObj` model the Python values that `json.dumps`
serializes into the `steps`, `tools_used` and `metadata` TEXT columns.
Mutual (rather than nested) inductives keep every function on them
structurally recursive, hence kernel-evaluable. -/

mutual
inductive Json where
  | null : Json
  | jbool (b : Bool) : Json
  | jint (n : ℤ) : Json
  | jfloat (q : ℚ) : Json
  | jstr (s : String) : Json
  | jarr (xs : JsonArr) : Json
  | jobj (kvs : JsonObj) : Json
inductive JsonArr where
  | nil : JsonArr
  | cons (x : Json) (xs : JsonArr) : JsonArr
inductive JsonObj where
  | nil : JsonObj
  | cons (k : String) (v : Json) (kvs : JsonObj) : JsonObj
end

/-- Build a JSON array value from a list of members. -/
def arrOfList : List Json → JsonArr
  | [] => JsonArr.nil
  | x :: xs => JsonArr.cons x (arrOfList xs)

/-- Build a JSON object value from an ordered list of key/value pairs
(Python dicts preserve insertion order). -/
def objOfList : List (String × Json) → JsonObj
  | [] => JsonObj.nil
  | kv :: kvs => JsonObj.cons kv.1 kv.2 (objOfList kvs)

/-- First value bound to key `k`, as Python `dict` lookup on parsed JSON. -/
def JsonObj.lookup : JsonObj → String → Option Json
  | JsonObj.nil, _ => none
  | JsonObj.cons k v kvs, key => if k = key then some v else kvs.lookup key

/-! ## Episode data model (`pkg/models/episode.py`) -/

/-- Outcome of an episode (`EpisodeStatus`). -/
inductive EpisodeStatus where
  | running | success | failure | timeout | killed
deriving DecidableEq

/-- Wire value of a status, the `.value` of the Python string enum. -/
def statusStr : EpisodeStatus → String
  | .running => "running"
  | .success => "success"
  | .failure => "failure"
  | .timeout => "timeout"
  | .killed => "killed"

/-- Parse a status wire value, as pydantic validation of the enum. -/
def statusOfString (s : String) : Option EpisodeStatus :=
  if s = "running" then some .running
  else if s = "success" then some .success
  else if s = "failure" then some .failure
  else if s = "timeout" then some .timeout
  else if s = "killed" then some .killed
  else none

/-- What kind of action a step represents (`StepType`). -/
inductive StepType where
  | llm_call | tool_call | tool_result | decision | error
deriving DecidableEq

/-- Wire value of a step type. -/
def stepTypeStr : StepType → String
  | .llm_call => "llm_call"
  | .tool_call => "tool_call"
  | .tool_result => "tool_result"
  | .decision => "decision"
  | .error => "error"

/-- Parse a step type wire value. -/
def stepTypeOfString (s : String) : Option StepType :=
  if s = "llm_call" then some .llm_call
  else if s = "tool_call" then some .tool_call
  else if s = "tool_result" then some .tool_result
  else if s = "decision" then some .decision
  else if s = "error" then some .error
  else none

/-- One step of an episode (`EpisodeStep`); `timestamp` is its ISO string. -/
structure EpisodeStep where
  step_index : ℕ
  step_type : StepType
  air_record_id : Option String := none
  tool_name : Option String := none
  model : Option String := none
  provider : Option String := none
  input_summary : Option String := none
  output_summary : Option String := none
  tokens : ℕ := 0
  cost_usd : ℚ := 0
  duration_ms : ℕ := 0
  timestamp : String
  error : Option String := none
  metadata : JsonObj := JsonObj.nil

/-- Creation payload (`EpisodeCreate`): validation requires a non-empty
`agent_id`. -/
structure EpisodeCreate where
  agent_id : String
  steps : List EpisodeStep := []
  status : EpisodeStatus := EpisodeStatus.running
  metadata : JsonObj := JsonObj.nil

/-- A complete episode record (`Episode`). -/
structure Episode where
  episode_id : String
  agent_id : String
  status : EpisodeStatus := EpisodeStatus.running
  steps : List EpisodeStep := []
  tools_used : List String := []
  total_tokens : ℕ := 0
  total_cost_usd : ℚ := 0
  total_duration_ms : ℕ := 0
  step_count : ℕ := 0
  started_at : String
  ended_at : Option String := none
  metadata : JsonObj := JsonObj.nil

/-- The `seen`/`tools` loop of `Episode.compute_aggregates`: a step
contributes its tool name when that name is truthy (present and non-empty)
and not seen before. -/
def toolsLoop : List EpisodeStep → List String → List String → List String
  | [], _, acc => acc
  | s :: ss, seen, acc =>
    match s.tool_name with
    | none => toolsLoop ss seen acc
    | some t =>
      if t ≠ "" && !(seen.contains t) then toolsLoop ss (t :: seen) (acc ++ [t])
      else toolsLoop ss seen acc

/-- `Episode.compute_aggregates`: recompute every aggregate field from the
step list. -/
def Episode.compute_aggregates (e : Episode) : Episode :=
  { e with
    step_count := e.steps.length
    total_tokens := (e.steps.map (fun s => s.tokens)).sum
    total_cost_usd := round6 ((e.steps.map (fun s => s.cost_usd)).sum)
    total_duration_ms := (e.steps.map (fun s => s.duration_ms)).sum
    tools_used := toolsLoop e.steps [] [] }

/-- Declarative first-occurrence deduplication, the specification-side
rendering of "deduplicated tool names in first-occurrence order". -/
def firstOccDedup : List String → List String
  | [] => []
  | x :: xs => x :: (firstOccDedup xs).filter (fun y => y ≠ x)

/-- Lightweight listing view (`EpisodeSummary`); `status` is carried as its
wire string, the API layer re-validating it into the enum. -/
structure EpisodeSummary where
  episode_id : String
  agent_id : String
  status : String
  tools_used : List String
  total_tokens : ℕ
  total_cost_usd : ℚ
  total_duration_ms : ℕ
  step_count : ℕ
  started_at : String
  ended_at : Option String

/-- One step of a replay view (`ReplayStep`): no timestamp and no error
field exist on this shape. -/
structure ReplayStep where
  replay_index : ℕ
  step_type : StepType
  tool_name : Option String := none
  model : Option String := none
  provider : Option String := none
  input_summary : Option String := none
  output_summary : Option String := none
  tokens : ℕ := 0
  cost_usd : ℚ := 0
  duration_ms : ℕ := 0
  metadata : JsonObj := JsonObj.nil

/-- Replay-ready view of an episode (`EpisodeReplay`). -/
structure EpisodeReplay where
  episode_id : String
  agent_id : String
  original_status : EpisodeStatus
  replay_steps : List ReplayStep
  total_tokens : ℕ
  total_cost_usd : ℚ
  tools_used : List String

/-- One field-level difference record (`StepDiff`); the engine always fills
both rendered values. -/
structure StepDiff where
  step_index : ℕ
  field : String
  left : String
  right : String

/-- Result of comparing two episodes step by step (`EpisodeDiff`). -/
structure EpisodeDiff where
  left_episode_id : String
  right_episode_id : String
  left_step_count : ℕ
  right_step_count : ℕ
  matching_steps : ℕ
  differing_steps : ℕ
  extra_left : ℕ
  extra_right : ℕ
  token_delta : ℤ
  cost_delta : ℚ
  duration_delta : ℤ
  step_diffs : List StepDiff

/-! ## JSON serialization (`json.dumps` with default separators) -/

/-- Hexadecimal digit character, lowercase, as Python emits in `\uXXXX`. -/
def hexDigit (n : ℕ) : Char :=
  if n < 10 then Char.ofNat (48 + n) else Char.ofNat (87 + n)

/-- Four-digit lowercase hex rendering of a code point. -/
def hex4 (n : ℕ) : String :=
  String.mk [hexDigit (n / 4096 % 16), hexDigit (n / 256 % 16),
             hexDigit (n / 16 % 16), hexDigit (n % 16)]

/-- Escape one character inside a JSON string literal, per `json.dumps` with
`ensure_ascii` (its default): quote, backslash and the short control escapes
get two-character forms, other control or non-ASCII characters `\uXXXX`
(code points beyond the basic plane excepted), the rest pass through. -/
def escapeChar (c : Char) : String :=
  if c = '"' then "\\\""
  else if c = '\\' then "\\\\"
  else if c = '\n' then "\\n"
  else if c = '\r' then "\\r"
  else if c = '\t' then "\\t"
  else if c.toNat < 32 || 127 < c.toNat then "\\u" ++ hex4 c.toNat
  else String.mk [c]

/-- Escape a character list into JSON string-literal content. -/
def escList : List Char → String
  | [] => ""
  | c :: cs => escapeChar c ++ escList cs

/-- A JSON string literal: quotes around the escaped content. -/
def quoteStr (s : String) : String := "\"" ++ escList s.data ++ "\""

/-- Decimal rendering of a non-negative rational with exactly `k` digits
after the point, zero-padded. -/
def decRender (m : ℕ) (k : ℕ) : String :=
  let frac := Nat.toDigits 10 (m % 10 ^ k)
  toString (m / 10 ^ k) ++ "." ++
    String.mk (List.replicate (k - frac.length) '0' ++ frac)

/-- Number of decimal digits needed for an exact decimal rendering of `q`:
the least `k` with `q.den` dividing `10 ^ k` (17, a double's digit budget,
when no exact rendering that short exists). -/
def decDigits (q : ℚ) : ℕ :=
  ((List.range 18).find? (fun k => 10 ^ k % q.den = 0)).getD 17

/-- Rendering of a Python float, as `repr`/`json.dumps` print the shortest
exact decimal: a sign, the integer part, a point and the fractional digits
(at least one, so integral values render like `2.0`). -/
def renderFloat (q : ℚ) : String :=
  let k := max 1 (decDigits q)
  let m := q.num.natAbs * (10 ^ k / q.den)
  (if q.num < 0 then "-" else "") ++ decRender m k

/-- Python's `", ".join` / `": "`-separated concatenation. -/
def joinSep (sep : String) : List String → String
  | [] => ""
  | [x] => x
  | x :: y :: xs => x ++ sep ++ joinSep sep (y :: xs)

mutual
/-- `json.dumps` with its default separators `(", ", ": ")` and default
`ensure_ascii`, over `Json` trees: exactly the text the storage layer puts
into the `steps`, `tools_used` and `metadata` TEXT columns. -/
def jsonDumps : Json → String
  | .null => "null"
  | .jbool true => "true"
  | .jbool false => "false"
  | .jint n => toString n
  | .jfloat q => renderFloat q
  | .jstr s => quoteStr s
  | .jarr xs => "[" ++ joinSep ", " (dumpsArr xs) ++ "]"
  | .jobj kvs => "\x7b" ++ joinSep ", " (dumpsObj kvs) ++ "\x7d"
/-- Renderings of the members of a JSON array, in order. -/
def dumpsArr : JsonArr → List String
  | .nil => []
  | .cons x xs => jsonDumps x :: dumpsArr xs
/-- Renderings `"key": value` of the entries of a JSON object, in order. -/
def dumpsObj : JsonObj → List String
  | .nil => []
  | .cons k v kvs => (quoteStr k ++ ": " ++ jsonDumps v) :: dumpsObj kvs
end

/-! ## Persistence engine (`pkg/storage/sqlite.py`) -/

/-- JSON value of an optional string field under `model_dump(mode="json")`. -/
def optStrJson : Option String → Json
  | none => Json.null
  | some s => Json.jstr s

/-- The key/value pairs of `EpisodeStep.model_dump(mode="json")`: keys in
field declaration order, the timestamp as its ISO string. -/
def stepFields (s : EpisodeStep) : List (String × Json) :=
    [("step_index", Json.jint s.step_index),
     ("step_type", Json.jstr (stepTypeStr s.step_type)),
     ("air_record_id", optStrJson s.air_record_id),
     ("tool_name", optStrJson s.tool_name),
     ("model", optStrJson s.model),
     ("provider", optStrJson s.provider),
     ("input_summary", optStrJson s.input_summary),
     ("output_summary", optStrJson s.output_summary),
     ("tokens", Json.jint s.tokens),
     ("cost_usd", Json.jfloat s.cost_usd),
     ("duration_ms", Json.jint s.duration_ms),
     ("timestamp", Json.jstr s.timestamp),
     ("error", optStrJson s.error),
     ("metadata", Json.jobj s.metadata)]

/-- The JSON object `EpisodeStep.model_dump(mode="json")` produces. -/
def stepObj (s : EpisodeStep) : JsonObj := objOfList (stepFields s)

/-- `EpisodeStep.model_dump(mode="json")` as a JSON value. -/
def stepToJson (s : EpisodeStep) : Json := Json.jobj (stepObj s)

/-- The value serialized into the `steps` column: the JSON array of the
dumps of all steps. -/
def stepsToJson (steps : List EpisodeStep) : Json :=
  Json.jarr (arrOfList (steps.map stepToJson))

/-- One row of the `episodes` table. TEXT columns holding JSON carry the
`Json` value whose `jsonDumps` is the stored text. -/
structure Row where
  episode_id : String
  agent_id : String
  status : String
  steps : Json
  tools_used : Json
  total_tokens : ℕ
  total_cost_usd : ℚ
  total_duration_ms : ℕ
  step_count : ℕ
  started_at : String
  ended_at : Option String
  metadata : JsonObj

/-- The INSERT binding of `EpisodeStore.save`: each episode field serialized
into its column. -/
def episodeToRow (e : Episode) : Row :=
  { episode_id := e.episode_id
    agent_id := e.agent_id
    status := statusStr e.status
    steps := stepsToJson e.steps
    tools_used := Json.jarr (arrOfList (e.tools_used.map Json.jstr))
    total_tokens := e.total_tokens
    total_cost_usd := e.total_cost_usd
    total_duration_ms := e.total_duration_ms
    step_count := e.step_count
    started_at := e.started_at
    ended_at := e.ended_at
    metadata := e.metadata }

/-- The `episodes` table: rows in insertion (rowid) order. -/
structure Store where
  rows : List Row

/-- `EpisodeStore.save`: compute aggregates, then INSERT. A duplicate
`episode_id` violates the PRIMARY KEY and the engine raises, modelled as
`none`; otherwise the committed store and the returned episode. -/
def save (st : Store) (e : Episode) : Option (Store × Episode) :=
  let e2 := e.compute_aggregates
  if st.rows.any (fun r => r.episode_id = e2.episode_id) then none
  else some (⟨st.rows ++ [episodeToRow e2]⟩, e2)

/-- `EpisodeStore.create`: assign the server-generated identifier and the
call-time timestamp (`newId` and `now` stand for `uuid4()` and
`datetime.now()`), set `ended_at` to that same instant unless the status is
`running`, then save. -/
def create (st : Store) (newId now : String) (p : EpisodeCreate) :
    Option (Store × Episode) :=
  let ended := if p.status ≠ EpisodeStatus.running then some now else none
  save st
    { episode_id := newId
      agent_id := p.agent_id
      status := p.status
      steps := p.steps
      started_at := now
      ended_at := ended
      metadata := p.metadata }

/-! ## Row deserialization (`EpisodeStore._row_to_episode`, pydantic
validation of `EpisodeStep(**s)`)

Missing optional keys fall back to the pydantic field defaults; missing or
ill-typed required data fails validation (`none`). The `timestamp` default
(`datetime.now`) never fires on stored rows, which always carry the key, so
a missing timestamp is modelled as a failure. -/

/-- Read an optional-string field from a parsed JSON object. -/
def fieldOptStr (kvs : JsonObj) (k : String) : Option (Option String) :=
  match kvs.lookup k with
  | none => some none
  | some Json.null => some none
  | some (Json.jstr s) => some (some s)
  | some _ => none

/-- Read a non-negative integer field, defaulting to 0 when absent. -/
def fieldNat (kvs : JsonObj) (k : String) : Option ℕ :=
  match kvs.lookup k with
  | none => some 0
  | some (Json.jint n) => if 0 ≤ n then some n.toNat else none
  | some _ => none

/-- Read a non-negative numeric field (pydantic accepts ints for floats),
defaulting to 0 when absent. -/
def fieldRat (kvs : JsonObj) (k : String) : Option ℚ :=
  match kvs.lookup k with
  | none => some 0
  | some (Json.jfloat q) => if 0 ≤ q then some q else none
  | some (Json.jint n) => if 0 ≤ n then some (n : ℚ) else none
  | some _ => none

/-- Read a required non-negative integer field (pydantic fails when it is
missing or negative). -/
def reqNat (kvs : JsonObj) (k : String) : Option ℕ :=
  match kvs.lookup k with
  | some (Json.jint n) => if 0 ≤ n then some n.toNat else none
  | _ => none

/-- Read a required string field. -/
def reqStr (kvs : JsonObj) (k : String) : Option String :=
  match kvs.lookup k with
  | some (Json.jstr s) => some s
  | _ => none

/-- Read the open metadata mapping, defaulting to empty when absent. -/
def fieldObj (kvs : JsonObj) (k : String) : Option JsonObj :=
  match kvs.lookup k with
  | none => some JsonObj.nil
  | some (Json.jobj m) => some m
  | some _ => none

/-- Parse one element of the `steps` column back into an `EpisodeStep`. -/
def stepOfJson : Json → Option EpisodeStep
  | Json.jobj kvs => do
    let si ← reqNat kvs "step_index"
    let stS ← reqStr kvs "step_type"
    let st ← stepTypeOfString stS
    let air ← fieldOptStr kvs "air_record_id"
    let tool ← fieldOptStr kvs "tool_name"
    let mdl ← fieldOptStr kvs "model"
    let prov ← fieldOptStr kvs "provider"
    let inS ← fieldOptStr kvs "input_summary"
    let outS ← fieldOptStr kvs "output_summary"
    let tok ← fieldNat kvs "tokens"
    let cost ← fieldRat kvs "cost_usd"
    let dur ← fieldNat kvs "duration_ms"
    let ts ← reqStr kvs "timestamp"
    let err ← fieldOptStr kvs "error"
    let meta ← fieldObj kvs "metadata"
    some { step_index := si, step_type := st, air_record_id := air,
           tool_name := tool, model := mdl, provider := prov,
           input_summary := inS, output_summary := outS, tokens := tok,
           cost_usd := cost, duration_ms := dur, timestamp := ts,
           error := err, metadata := meta }
  | _ => none

/-- Parse every element of the `steps` column, failing if any fails. -/
def stepsOfArr : JsonArr → Option (List EpisodeStep)
  | JsonArr.nil => some []
  | JsonArr.cons x xs => do
    let s ← stepOfJson x
    let ss ← stepsOfArr xs
    some (s :: ss)

/-- Parse the `tools_used` column: a JSON array of strings. -/
def strListOfArr : JsonArr → Option (List String)
  | JsonArr.nil => some []
  | JsonArr.cons (Json.jstr s) xs => do
    let ss ← strListOfArr xs
    some (s :: ss)
  | JsonArr.cons _ _ => none

/-- `EpisodeStore._row_to_episode`: rebuild the full `Episode` from a row. -/
def rowToEpisode (r : Row) : Option Episode := do
  let stepsA ← match r.steps with | Json.jarr xs => some xs | _ => none
  let steps ← stepsOfArr stepsA
  let status ← statusOfString r.status
  let toolsA ← match r.tools_used with | Json.jarr xs => some xs | _ => none
  let tools ← strListOfArr toolsA
  some { episode_id := r.episode_id, agent_id := r.agent_id,
         status := status, steps := steps, tools_used := tools,
         total_tokens := r.total_tokens, total_cost_usd := r.total_cost_usd,
         total_duration_ms := r.total_duration_ms, step_count := r.step_count,
         started_at := r.started_at, ended_at := r.ended_at,
         metadata := r.metadata }

/-- `EpisodeStore._row_to_summary`: the lightweight projection of a row;
step payloads are never deserialized here. -/
def rowToSummary (r : Row) : EpisodeSummary :=
  { episode_id := r.episode_id, agent_id := r.agent_id, status := r.status,
    tools_used := (match r.tools_used with
      | Json.jarr xs => (strListOfArr xs).getD []
      | _ => []),
    total_tokens := r.total_tokens, total_cost_usd := r.total_cost_usd,
    total_duration_ms := r.total_duration_ms, step_count := r.step_count,
    started_at := r.started_at, ended_at := r.ended_at }

/-- `EpisodeStore.get`: `SELECT * WHERE episode_id = ?` then `fetchone` —
the first matching row in rowid order — rebuilt into an `Episode`; `none`
when no row matches. -/
def getEp (st : Store) (episode_id : String) : Option Episode :=
  (st.rows.find? (fun r => r.episode_id = episode_id)).bind rowToEpisode

/-! ## Query machinery: `LIKE`, WHERE clauses, ordering -/

/-- ASCII lowercasing of one character, as SQLite's default `LIKE`
case-folds ASCII letters only. -/
def lowerAscii (c : Char) : Char :=
  if 'A' ≤ c && c ≤ 'Z' then Char.ofNat (c.toNat + 32) else c

/-- SQLite `LIKE` over character lists: `%` matches any run, `_` any single
character, other characters match themselves up to ASCII case. -/
def likeMatches : List Char → List Char → Bool
  | [], t => t.isEmpty
  | p :: ps, t =>
    if p = '%' then t.tails.any (fun suf => likeMatches ps suf)
    else if p = '_' then
      match t with
      | [] => false
      | _ :: ts => likeMatches ps ts
    else
      match t with
      | [] => false
      | c :: ts => lowerAscii p = lowerAscii c && likeMatches ps ts

/-- `text LIKE pattern` on strings. -/
def likeStr (pat text : String) : Bool := likeMatches pat.data text.data

/-- The `steps LIKE '%"model": "<m>"%'` clause of `EpisodeStore.list`,
running over the serialized text of the `steps` column. -/
def modelClause (r : Row) (m : String) : Bool :=
  likeStr ("%\"model\": \"" ++ m ++ "\"%") (jsonDumps r.steps)

/-- The `steps LIKE '%"provider": "<p>"%'` clause of `EpisodeStore.list`. -/
def providerClause (r : Row) (p : String) : Bool :=
  likeStr ("%\"provider\": \"" ++ p ++ "\"%") (jsonDumps r.steps)

/-- The `tools_used LIKE '%"<t>"%'` clause of `EpisodeStore.list`. -/
def toolClause (r : Row) (t : String) : Bool :=
  likeStr ("%\"" ++ t ++ "\"%") (jsonDumps r.tools_used)

/-- Conditional WHERE clause for an optional string parameter: Python adds
the clause only under `if param:`, so `None` and the empty string both
leave the row set unrestricted. -/
def optClause (v : Option String) (p : String → Bool) : Bool :=
  match v with
  | none => true
  | some s => if s = "" then true else p s

/-- Conditional WHERE clause for an optional datetime parameter (datetimes
are always truthy, so only `None` omits the clause). -/
def optClauseDT (v : Option String) (p : String → Bool) : Bool :=
  match v with
  | none => true
  | some s => p s

/-- The full WHERE predicate of `EpisodeStore.list`, clause by clause in
source order. -/
def listWhere (agent_id status since until_ model provider tool : Option String)
    (r : Row) : Bool :=
  optClause agent_id (fun a => r.agent_id = a) &&
  optClause status (fun s => r.status = s) &&
  optClauseDT since (fun s => strLeB s r.started_at) &&
  optClauseDT until_ (fun u => strLeB r.started_at u) &&
  optClause model (fun m => modelClause r m) &&
  optClause provider (fun p => providerClause r p) &&
  optClause tool (fun t => toolClause r t)

/-- Descending order on rows by start timestamp: `a` may come before `b`.
`ORDER BY started_at DESC` keeps ties in insertion order, which a stable
insertion sort under this total preorder reproduces. -/
def rowRel (a b : Row) : Prop := strLeB b.started_at a.started_at = true

instance : DecidableRel rowRel := fun _ _ =>
  inferInstanceAs (Decidable (_ = true))

/-- `ORDER BY started_at DESC` over a result set in insertion order. -/
def orderByStartedDesc (rs : List Row) : List Row :=
  List.insertionSort rowRel rs

/-- `EpisodeStore.list`: filter, order newest-first, apply OFFSET then
LIMIT, and project each row to a summary. -/
def listEps (st : Store)
    (agent_id status since until_ model provider tool : Option String)
    (limit offset : ℕ) : List EpisodeSummary :=
  let rs := st.rows.filter
    (listWhere agent_id status since until_ model provider tool)
  (((orderByStartedDesc rs).drop offset).take limit).map rowToSummary

/-- `store.list()` with every parameter left at its Python default:
no filters, `limit=50`, `offset=0`. -/
def listDefault (st : Store) : List EpisodeSummary :=
  listEps st none none none none none none none 50 0

/-- `EpisodeStore.count`: agent/status filters with the same truthiness
guards, returning the cardinality only. -/
def countEps (st : Store) (agent_id status : Option String) : ℕ :=
  (st.rows.filter (fun r =>
    optClause agent_id (fun a => r.agent_id = a) &&
    optClause status (fun s => r.status = s))).length

/-- `EpisodeStore.export_jsonl`: agent/status/since/until filters, the same
ordering as `list`, no LIMIT/OFFSET, full episode records rebuilt from each
row (each one the dict serialized to one JSONL line). -/
def exportJsonl (st : Store)
    (agent_id status since until_ : Option String) : List Episode :=
  let rs := st.rows.filter (fun r =>
    optClause agent_id (fun a => r.agent_id = a) &&
    optClause status (fun s => r.status = s) &&
    optClauseDT since (fun s => strLeB s r.started_at) &&
    optClauseDT until_ (fun u => strLeB r.started_at u))
  (orderByStartedDesc rs).filterMap rowToEpisode

/-! ## Replay transformer (`EpisodeStore.get_replay`) -/

/-- Pair each list element with its position, Python's `enumerate`. -/
def enumFrom (i : ℕ) : List α → List (ℕ × α)
  | [] => []
  | x :: xs => (i, x) :: enumFrom (i + 1) xs

/-- The `ReplayStep` built from position `i` of the fetched episode's step
list: renumbered by that position, timestamp and error dropped, every other
field copied. -/
def toReplayStep (i : ℕ) (s : EpisodeStep) : ReplayStep :=
  { replay_index := i, step_type := s.step_type, tool_name := s.tool_name,
    model := s.model, provider := s.provider,
    input_summary := s.input_summary, output_summary := s.output_summary,
    tokens := s.tokens, cost_usd := s.cost_usd, duration_ms := s.duration_ms,
    metadata := s.metadata }

/-- `EpisodeStore.get_replay`: fetch, then rebuild the replay view; `none`
when the episode is absent. -/
def getReplay (st : Store) (episode_id : String) : Option EpisodeReplay :=
  (getEp st episode_id).map (fun e =>
    { episode_id := e.episode_id, agent_id := e.agent_id,
      original_status := e.status,
      replay_steps := (enumFrom 0 e.steps).map (fun p => toReplayStep p.1 p.2),
      total_tokens := e.total_tokens, total_cost_usd := e.total_cost_usd,
      tools_used := e.tools_used })

/-! ## Diff engine (`EpisodeStore.diff`) -/

/-- Python `str()` of a `StepType` member: the enum's default rendering
`"StepType.<MEMBER>"` (the `str` mixin does not override `Enum.__str__`). -/
def pyStrStepType : StepType → String
  | .llm_call => "StepType.LLM_CALL"
  | .tool_call => "StepType.TOOL_CALL"
  | .tool_result => "StepType.TOOL_RESULT"
  | .decision => "StepType.DECISION"
  | .error => "StepType.ERROR"

/-- Python `str()` of an optional string: `None` renders as `"None"`. -/
def pyStrOpt : Option String → String
  | none => "None"
  | some s => s

/-- The fixed `compare_fields` list of `EpisodeStore.diff`: each field name
with the `str(getattr(step, field))` renderer it is compared through. -/
def compareFields : List (String × (EpisodeStep → String)) :=
  [("step_type", fun s => pyStrStepType s.step_type),
   ("tool_name", fun s => pyStrOpt s.tool_name),
   ("model", fun s => pyStrOpt s.model),
   ("provider", fun s => pyStrOpt s.provider),
   ("input_summary", fun s => pyStrOpt s.input_summary),
   ("output_summary", fun s => pyStrOpt s.output_summary)]

/-- The inner field loop of `EpisodeStore.diff` at step index `i`: walk the
compare fields in order, appending one record per mismatch and flagging
whether any mismatched. -/
def stepFieldFold (i : ℕ) (ls rs : EpisodeStep) : List StepDiff × Bool :=
  compareFields.foldl
    (fun acc fr =>
      if fr.2 ls ≠ fr.2 rs then
        (acc.1 ++ [{ step_index := i, field := fr.1,
                     left := fr.2 ls, right := fr.2 rs }], true)
      else acc)
    ([], false)

/-- The outer step loop of `EpisodeStore.diff`: for each position up to the
shorter length (`zip` truncates exactly there), accumulate the records and
the matching/differing counters. -/
def diffLoop (ls rs : List EpisodeStep) : List StepDiff × ℕ × ℕ :=
  (enumFrom 0 (ls.zip rs)).foldl
    (fun acc p =>
      let d := stepFieldFold p.1 p.2.1 p.2.2
      (acc.1 ++ d.1,
       if d.2 then (acc.2.1, acc.2.2 + 1) else (acc.2.1 + 1, acc.2.2)))
    ([], 0, 0)

/-- `EpisodeStore.diff`: fetch both episodes (`none` if either is absent),
run the positional comparison, and assemble the result with the aggregate
deltas, right minus left. -/
def diffEps (st : Store) (left_id right_id : String) : Option EpisodeDiff :=
  match getEp st left_id, getEp st right_id with
  | some left, some right =>
    let res := diffLoop left.steps right.steps
    some { left_episode_id := left_id, right_episode_id := right_id,
           left_step_count := left.steps.length,
           right_step_count := right.steps.length,
           matching_steps := res.2.1, differing_steps := res.2.2,
           extra_left :=
             (max 0 ((left.steps.length : ℤ) - right.steps.length)).toNat,
           extra_right :=
             (max 0 ((right.steps.length : ℤ) - left.steps.length)).toNat,
           token_delta := (right.total_tokens : ℤ) - left.total_tokens,
           cost_delta := round6 (right.total_cost_usd - left.total_cost_usd),
           duration_delta :=
             (right.total_duration_ms : ℤ) - left.total_duration_ms,
           step_diffs := res.1 }
  | _, _ => none

/-- Specification-side per-index diff records: one record per compared
field whose two renderings differ, fields in `compare_fields` order. -/
def stepPairDiffs (i : ℕ) (ls rs : EpisodeStep) : List StepDiff :=
  (compareFields.filter (fun fr => fr.2 ls ≠ fr.2 rs)).map
    (fun fr => { step_index := i, field := fr.1,
                 left := fr.2 ls, right := fr.2 rs })

/-- Whether a step pair has at least one mismatching compared field. -/
def pairMismatch (ls rs : EpisodeStep) : Bool :=
  compareFields.any (fun fr => fr.2 ls ≠ fr.2 rs)

/-- Swap the two rendered values of a diff record. -/
def swapRec (d : StepDiff) : StepDiff :=
  { step_index := d.step_index, field := d.field,
    left := d.right, right := d.left }

/-- A character that serializes as itself and never over-matches in a
`LIKE` pattern: not a quote, backslash or percent, printable ASCII. An
underscore is allowed: as a `LIKE` wildcard it matches any one character,
its own literal occurrence included, so soundness is unaffected. -/
def plainChar (c : Char) : Bool :=
  c ≠ '"' && c ≠ '\\' && c ≠ '%' &&
    decide (32 ≤ c.toNat) && decide (c.toNat < 127)

/-- A string of plain characters. -/
def plainStr (s : String) : Bool := s.data.all plainChar

/-! ## Fixtures: concrete episodes, payloads and stores used by witnesses -/

/-- A concrete LLM-call step. -/
def stepA : EpisodeStep :=
  { step_index := 0, step_type := StepType.llm_call, model := some "gpt-4",
    provider := some "openai", input_summary := some "ask",
    tokens := 150, cost_usd := mkRat 5 1000, duration_ms := 800,
    timestamp := "2024-01-01T00:00:00+00:00" }

/-- A concrete tool-call step with nested metadata. -/
def stepB : EpisodeStep :=
  { step_index := 1, step_type := StepType.tool_call,
    tool_name := some "web_search", tokens := 200, cost_usd := mkRat 6 1000,
    duration_ms := 1200, timestamp := "2024-01-01T00:00:01+00:00",
    metadata := objOfList
      [("k", Json.jobj (objOfList [("inner", Json.jint 1)]))] }

/-- A concrete creation payload. -/
def payloadA : EpisodeCreate :=
  { agent_id := "a", steps := [stepA, stepB],
    status := EpisodeStatus.success }

/-- The episode `create` builds from `payloadA` at identifier `"id1"` and
instant `"2024-01-01T00:00:02+00:00"`. -/
def epA : Episode :=
  (Episode.mk "id1" "a" EpisodeStatus.success [stepA, stepB] [] 0 0 0 0
    "2024-01-01T00:00:02+00:00" (some "2024-01-01T00:00:02+00:00")
    JsonObj.nil).compute_aggregates

/-- A second episode, one step, a different model, an earlier start. -/
def epB : Episode :=
  (Episode.mk "id2" "b" EpisodeStatus.failure
    [{ step_index := 0, step_type := StepType.llm_call,
       model := some "claude", provider := some "anthropic",
       tokens := 80, cost_usd := mkRat 1 1000, duration_ms := 500,
       timestamp := "2024-01-01T00:00:00+00:00" }] [] 0 0 0 0
    "2024-01-01T00:00:01+00:00" (some "2024-01-01T00:00:01+00:00")
    JsonObj.nil).compute_aggregates

/-- Store holding just `epA`. -/
def storeA : Store := ⟨[episodeToRow epA]⟩

/-- Store holding `epA` then `epB`. -/
def storeAB : Store := ⟨[episodeToRow epA, episodeToRow epB]⟩

/-- The diff record `diff` computes between `epA` (left) and `epB`
(right) in `storeAB`. -/
def dAB : EpisodeDiff :=
  match diffEps (Store.mk [episodeToRow epA, episodeToRow epB]) "id1" "id2" with
  | some d => d
  | none => EpisodeDiff.mk "" "" 0 0 0 0 0 0 0 0 0 []

/-- The diff record `diff` computes between `epB` (left) and `epA`
(right) in `storeAB`. -/
def dBA : EpisodeDiff :=
  match diffEps (Store.mk [episodeToRow epA, episodeToRow epB]) "id2" "id1" with
  | some d => d
  | none => EpisodeDiff.mk "" "" 0 0 0 0 0 0 0 0 0 []

/-- The replay view `get_replay` builds for `epA`. -/
def repA : EpisodeReplay :=
  { episode_id := "id1", agent_id := "a",
    original_status := EpisodeStatus.success,
    replay_steps := (enumFrom 0 epA.steps).map (fun p => toReplayStep p.1 p.2),
    total_tokens := epA.total_tokens, total_cost_usd := epA.total_cost_usd,
    tools_used := epA.tools_used }

/-- An episode with no steps, numbered identifier, shared start instant. -/
def mk51Ep (i : ℕ) : Episode :=
  (Episode.mk ("id" ++ toString i) "a" EpisodeStatus.success [] [] 0 0 0 0
    "2024-01-01T00:00:00+00:00" none JsonObj.nil).compute_aggregates

/-- A store with fifty-one episodes inserted in order `id0` .. `id50`. -/
def store51 : Store :=
  ⟨(List.range 51).map (fun i => episodeToRow (mk51Ep i))⟩

/-- A step that uses no model but carries `"model": "gpt-4"` inside its
open metadata mapping. -/
def metaStep : EpisodeStep :=
  { step_index := 0, step_type := StepType.decision,
    timestamp := "2024-01-01T00:00:00+00:00",
    metadata := objOfList [("model", Json.jstr "gpt-4")] }

/-- The episode wrapping `metaStep`, aggregates computed. -/
def metaEp : Episode :=
  (Episode.mk "mx" "agent" EpisodeStatus.success [metaStep] [] 0 0 0 0
    "2024-01-01T00:00:00+00:00" none JsonObj.nil).compute_aggregates

/-- Store holding just `metaEp`. -/
def metaStore : Store := ⟨[episodeToRow metaEp]⟩

/-! ## General lemmas -/

/-- The tool names `compute_aggregates` considers: present and non-empty,
in step order, repetitions kept. -/
def presentTools (ss : List EpisodeStep) : List String :=
  (ss.filterMap (fun s => s.tool_name)).filter (fun t => t ≠ "")

theorem toolsLoop_spec (ss : List EpisodeStep) : ∀ seen acc,
    toolsLoop ss seen acc
      = acc ++ (firstOccDedup (presentTools ss)).filter
          (fun t => !(seen.contains t)) := by
  induction ss with
  | nil => intro seen acc; simp [toolsLoop, presentTools, firstOccDedup]
  | cons s ss ih =>
    intro seen acc
    cases hs : s.tool_name with
    | none =>
      simpa [toolsLoop, hs, presentTools, List.filterMap_cons] using ih seen acc
    | some t =>
      by_cases ht : t = ""
      · subst ht
        simpa [toolsLoop, hs, presentTools, List.filterMap_cons] using ih seen acc
      · have hp : presentTools (s :: ss) = t :: presentTools ss := by
          simp [presentTools, List.filterMap_cons, hs, ht]
        by_cases hseen : t ∈ seen
        · have hstep : toolsLoop (s :: ss) seen acc = toolsLoop ss seen acc := by
            simp only [toolsLoop, hs]
            rw [if_neg (by simp [List.elem_eq_mem, hseen])]
          rw [hstep, ih seen acc, hp]
          have hfx : ((firstOccDedup (t :: presentTools ss)).filter
              (fun x => !(seen.contains x)))
              = (firstOccDedup (presentTools ss)).filter
                (fun x => !(seen.contains x)) := by
            simp only [firstOccDedup, List.filter_cons, List.filter_filter]
            rw [if_neg (by simp [List.elem_eq_mem, hseen])]
            exact List.filter_congr (fun y _ => by
              by_cases hyt : y = t
              · subst hyt; simp [List.elem_eq_mem, hseen]
              · simp [hyt])
          rw [hfx]
        · have hstep : toolsLoop (s :: ss) seen acc
              = toolsLoop ss (t :: seen) (acc ++ [t]) := by
            simp only [toolsLoop, hs]
            rw [if_pos (by simp [List.elem_eq_mem, hseen, ht])]
          rw [hstep, ih (t :: seen) (acc ++ [t]), hp]
          have hfx : ((firstOccDedup (t :: presentTools ss)).filter
              (fun x => !(seen.contains x)))
              = t :: (firstOccDedup (presentTools ss)).filter
                  (fun x => !((t :: seen).contains x)) := by
            simp only [firstOccDedup, List.filter_cons, List.filter_filter]
            rw [if_pos (by simp [List.elem_eq_mem, hseen])]
            refine congrArg (t :: ·) (List.filter_congr (fun y _ => by
              by_cases hyt : y = t
              · subst hyt; simp
              · simp [hyt]))
          rw [hfx]
          simp

theorem compute_aggregates_tools (e : Episode) :
    e.compute_aggregates.tools_used = firstOccDedup (presentTools e.steps) := by
  simp [Episode.compute_aggregates, toolsLoop_spec]

theorem save_some (st : Store) (e0 : Episode) (st' : Store) (e : Episode)
    (h : save st e0 = some (st', e)) :
    e = e0.compute_aggregates ∧
    st' = ⟨st.rows ++ [episodeToRow e0.compute_aggregates]⟩ ∧
    (st.rows.any
      (fun r => r.episode_id = e0.compute_aggregates.episode_id)) = false := by
  simp only [save] at h
  split at h
  · exact absurd h (by simp)
  · next hc =>
      injection h with h2
      exact ⟨(congrArg Prod.snd h2).symm, (congrArg Prod.fst h2).symm,
        by simpa using hc⟩

/-- C1: for every valid creation (non-empty agent identifier, arbitrary step
list), the persisted episode's aggregates are consistent with the supplied
steps: `step_count` is the number of steps, `total_tokens` and
`total_duration_ms` the sums over the steps, `total_cost_usd` the rounded
cost sum, and `tools_used` the first-occurrence deduplication of the present,
non-empty tool names. -/
theorem C1_create_aggregates (st st' : Store) (newId now : String)
    (p : EpisodeCreate) (e : Episode)
    (hv : p.agent_id ≠ "")
    (h : create st newId now p = some (st', e)) :
    e.step_count = p.steps.length ∧
    e.total_tokens = (p.steps.map (fun s => s.tokens)).sum ∧
    e.total_cost_usd = round6 ((p.steps.map (fun s => s.cost_usd)).sum) ∧
    e.total_duration_ms = (p.steps.map (fun s => s.duration_ms)).sum ∧
    e.tools_used = firstOccDedup
      ((p.steps.filterMap (fun s => s.tool_name)).filter (fun t => t ≠ "")) := by
  simp only [create] at h
  obtain ⟨he, -, -⟩ := save_some _ _ _ _ h
  subst he
  refine ⟨rfl, rfl, rfl, rfl, ?_⟩
  rw [compute_aggregates_tools]
  rfl

theorem C1_create_aggregates_witness :
    payloadA.agent_id ≠ "" ∧
    (epA.step_count = payloadA.steps.length ∧
     epA.total_tokens = (payloadA.steps.map (fun s => s.tokens)).sum ∧
     epA.total_cost_usd
       = round6 ((payloadA.steps.map (fun s => s.cost_usd)).sum) ∧
     epA.total_duration_ms
       = (payloadA.steps.map (fun s => s.duration_ms)).sum ∧
     epA.tools_used = firstOccDedup
       ((payloadA.steps.filterMap (fun s => s.tool_name)).filter
         (fun t => t ≠ ""))) :=
  ⟨by decide,
   C1_create_aggregates ⟨[]⟩ storeA "id1" "2024-01-01T00:00:02+00:00"
     payloadA epA (by decide) rfl⟩

theorem statusOfString_statusStr (s : EpisodeStatus) :
    statusOfString (statusStr s) = some s := by
  cases s <;> rfl

theorem stepTypeOfString_stepTypeStr (t : StepType) :
    stepTypeOfString (stepTypeStr t) = some t := by
  cases t <;> rfl

theorem fieldOptStr_optStrJson (v : Option String) (kvs : JsonObj) (k : String)
    (h : kvs.lookup k = some (optStrJson v)) : fieldOptStr kvs k = some v := by
  cases v <;> simp [fieldOptStr, h, optStrJson]

theorem reqNat_lookup (kvs : JsonObj) (k : String) (n : ℕ)
    (h : kvs.lookup k = some (Json.jint (n : ℤ))) : reqNat kvs k = some n := by
  simp [reqNat, h, Int.natCast_nonneg]

theorem reqStr_lookup (kvs : JsonObj) (k s : String)
    (h : kvs.lookup k = some (Json.jstr s)) : reqStr kvs k = some s := by
  simp [reqStr, h]

theorem fieldObj_lookup (kvs : JsonObj) (k : String) (m : JsonObj)
    (h : kvs.lookup k = some (Json.jobj m)) : fieldObj kvs k = some m := by
  simp [fieldObj, h]

theorem fieldNat_lookup (kvs : JsonObj) (k : String) (n : ℕ)
    (h : kvs.lookup k = some (Json.jint (n : ℤ))) : fieldNat kvs k = some n := by
  simp [fieldNat, h, Int.natCast_nonneg]

theorem fieldRat_lookup (kvs : JsonObj) (k : String) (q : ℚ) (hq : 0 ≤ q)
    (h : kvs.lookup k = some (Json.jfloat q)) : fieldRat kvs k = some q := by
  simp [fieldRat, h, hq]

theorem stepOfJson_stepToJson (s : EpisodeStep) (h : 0 ≤ s.cost_usd) :
    stepOfJson (stepToJson s) = some s := by
  obtain ⟨si, st, air, tool, mdl, prov, inS, outS, tok, cost, dur, ts, err, meta⟩ := s
  have hK : stepToJson ⟨si, st, air, tool, mdl, prov, inS, outS, tok, cost,
      dur, ts, err, meta⟩
      = Json.jobj (stepObj ⟨si, st, air, tool, mdl, prov, inS, outS, tok,
          cost, dur, ts, err, meta⟩) := rfl
  set K := stepObj ⟨si, st, air, tool, mdl, prov, inS, outS, tok, cost, dur,
    ts, err, meta⟩ with hKdef
  rw [hK]
  have l1 : K.lookup "step_index" = some (Json.jint (si : ℤ)) := rfl
  have l2 : K.lookup "step_type" = some (Json.jstr (stepTypeStr st)) := rfl
  have l3 : K.lookup "air_record_id" = some (optStrJson air) := rfl
  have l4 : K.lookup "tool_name" = some (optStrJson tool) := rfl
  have l5 : K.lookup "model" = some (optStrJson mdl) := rfl
  have l6 : K.lookup "provider" = some (optStrJson prov) := rfl
  have l7 : K.lookup "input_summary" = some (optStrJson inS) := rfl
  have l8 : K.lookup "output_summary" = some (optStrJson outS) := rfl
  have l9 : K.lookup "tokens" = some (Json.jint (tok : ℤ)) := rfl
  have l10 : K.lookup "cost_usd" = some (Json.jfloat cost) := rfl
  have l11 : K.lookup "duration_ms" = some (Json.jint (dur : ℤ)) := rfl
  have l12 : K.lookup "timestamp" = some (Json.jstr ts) := rfl
  have l13 : K.lookup "error" = some (optStrJson err) := rfl
  have l14 : K.lookup "metadata" = some (Json.jobj meta) := rfl
  simp only [stepOfJson, reqNat_lookup K _ _ l1, reqStr_lookup K _ _ l2,
    reqStr_lookup K _ _ l12,
    fieldOptStr_optStrJson _ K _ l3, fieldOptStr_optStrJson _ K _ l4,
    fieldOptStr_optStrJson _ K _ l5, fieldOptStr_optStrJson _ K _ l6,
    fieldOptStr_optStrJson _ K _ l7, fieldOptStr_optStrJson _ K _ l8,
    fieldOptStr_optStrJson _ K _ l13,
    fieldNat_lookup K _ _ l9, fieldNat_lookup K _ _ l11,
    fieldRat_lookup K _ _ h l10, fieldObj_lookup K _ _ l14,
    stepTypeOfString_stepTypeStr, Option.some_bind]
  simp [stepTypeOfString_stepTypeStr]

theorem stepsOfArr_roundtrip (l : List EpisodeStep)
    (h : ∀ s ∈ l, 0 ≤ s.cost_usd) :
    stepsOfArr (arrOfList (l.map stepToJson)) = some l := by
  induction l with
  | nil => rfl
  | cons s ss ih =>
    simp only [List.map_cons, arrOfList, stepsOfArr,
      stepOfJson_stepToJson s (h s (by simp)), Option.some_bind,
      ih (fun x hx => h x (by simp [hx]))]
    rfl

theorem strListOfArr_roundtrip (l : List String) :
    strListOfArr (arrOfList (l.map Json.jstr)) = some l := by
  induction l with
  | nil => rfl
  | cons s ss ih =>
    simp only [List.map_cons, arrOfList, strListOfArr, ih, Option.some_bind]
    rfl

theorem rowToEpisode_episodeToRow (e : Episode)
    (h : ∀ s ∈ e.steps, 0 ≤ s.cost_usd) :
    rowToEpisode (episodeToRow e) = some e := by
  simp [rowToEpisode, episodeToRow, stepsToJson,
    stepsOfArr_roundtrip e.steps h, statusOfString_statusStr,
    strListOfArr_roundtrip]

/-- Fetching immediately after a fresh insert returns the inserted episode
intact: the serialize/parse composition over the appended row is lossless. -/
theorem getEp_append_fresh (st : Store) (e : Episode)
    (hfresh : st.rows.any (fun r => r.episode_id = e.episode_id) = false)
    (hsteps : ∀ s ∈ e.steps, 0 ≤ s.cost_usd) :
    getEp ⟨st.rows ++ [episodeToRow e]⟩ e.episode_id = some e := by
  have hnone : st.rows.find? (fun r => r.episode_id = e.episode_id) = none :=
    List.find?_eq_none.mpr (fun r hr => by
      simpa using (List.any_eq_false.mp hfresh) r hr)
  simp only [getEp, List.find?_append, hnone, Option.none_or,
    List.find?_cons]
  have hpr : (decide ((episodeToRow e).episode_id = e.episode_id)) = true := by
    simp [episodeToRow]
  rw [hpr]
  simpa using rowToEpisode_episodeToRow e hsteps

/-- C2: for every valid creation payload (pydantic validation guarantees the
non-empty agent identifier and non-negative step costs), fetching by the
identifier of the episode `create` returned yields an episode equal to the
returned one in every field — the step list, with all step fields and nested
metadata, survives the serialize/deserialize round trip through the row. -/
theorem C2_create_get_roundtrip (st st' : Store) (newId now : String)
    (p : EpisodeCreate) (e : Episode)
    (hv : p.agent_id ≠ "")
    (hc : ∀ s ∈ p.steps, 0 ≤ s.cost_usd)
    (h : create st newId now p = some (st', e)) :
    getEp st' newId = some e := by
  simp only [create] at h
  obtain ⟨he, hst, hfresh⟩ := save_some _ _ _ _ h
  subst he
  subst hst
  exact getEp_append_fresh st _ hfresh (fun s hs => hc s hs)

theorem C2_create_get_roundtrip_witness :
    payloadA.agent_id ≠ "" ∧ (∀ s ∈ payloadA.steps, 0 ≤ s.cost_usd) ∧
    create ⟨[]⟩ "id1" "2024-01-01T00:00:02+00:00" payloadA
      = some (storeA, epA) ∧
    getEp storeA "id1" = some epA :=
  ⟨by decide, by decide, rfl,
   C2_create_get_roundtrip ⟨[]⟩ storeA "id1" "2024-01-01T00:00:02+00:00"
     payloadA epA (by decide) (by decide) rfl⟩

/-- C8: lookups that miss are explicit absent results, never faults: `get`
on an unknown identifier returns `none`, `get_replay` does too, and `diff`
returns `none` whenever either side is unknown, with nothing distinguishing
which side failed. -/
theorem C8_not_found (st : Store) (missing other : String)
    (h : ∀ r ∈ st.rows, r.episode_id ≠ missing) :
    getEp st missing = none ∧ getReplay st missing = none ∧
    diffEps st missing other = none ∧ diffEps st other missing = none := by
  have hf : st.rows.find? (fun r => r.episode_id = missing) = none :=
    List.find?_eq_none.mpr (fun r hr => by simpa using h r hr)
  have hget : getEp st missing = none := by simp [getEp, hf]
  refine ⟨hget, by simp [getReplay, hget], by simp [diffEps, hget], ?_⟩
  cases hcase : getEp st other <;> simp [diffEps, hget, hcase]

theorem C8_not_found_witness :
    (∀ r ∈ storeA.rows, r.episode_id ≠ "nope") ∧
    getEp storeA "nope" = none ∧ getReplay storeA "nope" = none ∧
    diffEps storeA "nope" "id1" = none ∧ diffEps storeA "id1" "nope" = none :=
  ⟨by decide, C8_not_found storeA "nope" "id1" (by decide)⟩

theorem enumFrom_length (l : List α) : ∀ i, (enumFrom i l).length = l.length := by
  induction l with
  | nil => intro i; rfl
  | cons x xs ih => intro i; simp [enumFrom, ih]

theorem enumFrom_get (l : List α) : ∀ (i j : ℕ) (h : j < (enumFrom i l).length)
    (h' : j < l.length), (enumFrom i l).get ⟨j, h⟩ = (i + j, l.get ⟨j, h'⟩) := by
  induction l with
  | nil => intro i j h h'; exact absurd h' (by simp)
  | cons x xs ih =>
    intro i j h h'
    cases j with
    | zero => simp [enumFrom]
    | succ k =>
      have hk : k < (enumFrom (i + 1) xs).length := by
        simpa [enumFrom, enumFrom_length] using h
      have hk' : k < xs.length := by simpa using h'
      simp only [enumFrom, List.get_cons_succ, ih (i + 1) k hk hk']
      have harith : i + 1 + k = i + (k + 1) := by omega
      rw [harith]

/-- C6: the replay view of a stored episode renumbers its steps 0..n-1 in
original order whatever the stored `step_index` values were, drops the
timestamp and error fields (the `ReplayStep` shape has neither), copies
every other step field verbatim, and carries over the episode's identifier,
agent, original status and its token/cost/tools aggregates unchanged. -/
theorem C6_replay_view (st : Store) (episode_id : String) (e : Episode)
    (rep : EpisodeReplay)
    (he : getEp st episode_id = some e)
    (hr : getReplay st episode_id = some rep) :
    rep.episode_id = e.episode_id ∧ rep.agent_id = e.agent_id ∧
    rep.original_status = e.status ∧ rep.total_tokens = e.total_tokens ∧
    rep.total_cost_usd = e.total_cost_usd ∧ rep.tools_used = e.tools_used ∧
    rep.replay_steps.length = e.steps.length ∧
    (∀ j (hj : j < rep.replay_steps.length) (hj' : j < e.steps.length),
      (rep.replay_steps.get ⟨j, hj⟩).replay_index = j ∧
      (rep.replay_steps.get ⟨j, hj⟩).step_type
        = (e.steps.get ⟨j, hj'⟩).step_type ∧
      (rep.replay_steps.get ⟨j, hj⟩).tool_name
        = (e.steps.get ⟨j, hj'⟩).tool_name ∧
      (rep.replay_steps.get ⟨j, hj⟩).model = (e.steps.get ⟨j, hj'⟩).model ∧
      (rep.replay_steps.get ⟨j, hj⟩).provider
        = (e.steps.get ⟨j, hj'⟩).provider ∧
      (rep.replay_steps.get ⟨j, hj⟩).input_summary
        = (e.steps.get ⟨j, hj'⟩).input_summary ∧
      (rep.replay_steps.get ⟨j, hj⟩).output_summary
        = (e.steps.get ⟨j, hj'⟩).output_summary ∧
      (rep.replay_steps.get ⟨j, hj⟩).tokens = (e.steps.get ⟨j, hj'⟩).tokens ∧
      (rep.replay_steps.get ⟨j, hj⟩).cost_usd
        = (e.steps.get ⟨j, hj'⟩).cost_usd ∧
      (rep.replay_steps.get ⟨j, hj⟩).duration_ms
        = (e.steps.get ⟨j, hj'⟩).duration_ms ∧
      (rep.replay_steps.get ⟨j, hj⟩).metadata
        = (e.steps.get ⟨j, hj'⟩).metadata) := by
  simp only [getReplay, he, Option.map_some'] at hr
  injection hr with hrep
  subst hrep
  refine ⟨rfl, rfl, rfl, rfl, rfl, rfl, by simp [enumFrom_length], ?_⟩
  intro j hj hj'
  have hj2 : j < (enumFrom 0 e.steps).length := by simp [enumFrom_length, hj']
  have hget : ((enumFrom 0 e.steps).map
      (fun p => toReplayStep p.1 p.2)).get ⟨j, hj⟩
      = toReplayStep (0 + j) (e.steps.get ⟨j, hj'⟩) := by
    rw [List.get_map, enumFrom_get e.steps 0 j hj2 hj']
  rw [hget]
  simp [toReplayStep]

theorem C6_replay_view_witness :
    getEp storeA "id1" = some epA ∧ getReplay storeA "id1" = some repA ∧
    repA.replay_steps.length = epA.steps.length ∧
    repA.total_tokens = epA.total_tokens ∧ repA.tools_used = epA.tools_used :=
  ⟨rfl, rfl,
   (C6_replay_view storeA "id1" epA repA rfl rfl).2.2.2.2.2.2.1,
   (C6_replay_view storeA "id1" epA repA rfl rfl).2.2.2.1,
   (C6_replay_view storeA "id1" epA repA rfl rfl).2.2.2.2.2.1⟩

theorem rhe_neg (q : ℚ) : rhe (-q) = - rhe q := by
  have hnum : (-q).num = -q.num := Rat.neg_num q
  have hden : ((-q).den : ℤ) = (q.den : ℤ) := by rw [Rat.neg_den]
  rw [rhe, rhe, hnum, hden]
  have hdpos : 0 < (q.den : ℤ) := by exact_mod_cast q.den_pos
  have hde : (q.den : ℤ) * (q.num / (q.den : ℤ)) + q.num % (q.den : ℤ)
      = q.num := Int.ediv_add_emod q.num (q.den : ℤ)
  have h0 : 0 ≤ q.num % (q.den : ℤ) :=
    Int.emod_nonneg q.num (ne_of_gt hdpos)
  have hlt : q.num % (q.den : ℤ) < (q.den : ℤ) :=
    Int.emod_lt_of_pos q.num hdpos
  set d : ℤ := (q.den : ℤ) with hdd
  set f : ℤ := q.num / d with hff
  set rem : ℤ := q.num % d with hrr
  by_cases hz : rem = 0
  · have hdvd : -q.num = d * (-f) := by
      have : -q.num = -(d * f + rem) := by rw [hde]
      rw [this, hz]; ring
    have hf2 : -q.num / d = -f := by
      rw [hdvd]; exact Int.mul_ediv_cancel_left _ (ne_of_gt hdpos)
    have hr2 : -q.num % d = 0 := by
      rw [hdvd]; exact Int.mul_emod_right d (-f)
    rw [hf2, hr2, hz]
    rw [if_pos (by omega), if_pos (by omega)]
  · have hkey : -q.num / d = -f - 1 ∧ -q.num % d = d - rem := by
      refine (Int.ediv_emod_unique hdpos).mpr ⟨?_, by omega, by omega⟩
      have : d - rem + d * (-f - 1) = -(d * f + rem) := by ring
      rw [this, hde]
    obtain ⟨hf2, hr2⟩ := hkey
    rw [hf2, hr2]
    by_cases h1 : 2 * rem < d
    · rw [if_neg (by omega), if_pos (by omega), if_pos h1]; ring
    · by_cases h2 : d < 2 * rem
      · rw [if_pos (by omega), if_neg h1, if_pos h2]; ring
      · rw [if_neg (by omega), if_neg (by omega), if_neg h1, if_neg h2]
        by_cases hp : f % 2 = 0
        · rw [if_pos hp, if_neg (by omega)]; ring
        · rw [if_neg hp, if_pos (by omega)]; ring

theorem round6_neg (q : ℚ) : round6 (-q) = - round6 q := by
  rw [round6, round6, show -q * 1000000 = -(q * 1000000) by ring, rhe_neg]
  push_cast
  ring

theorem stepFieldFold_general (i : ℕ) (ls rs : EpisodeStep)
    (fs : List (String × (EpisodeStep → String))) :
    ∀ acc : List StepDiff × Bool,
    fs.foldl
      (fun acc fr =>
        if fr.2 ls ≠ fr.2 rs then
          (acc.1 ++ [{ step_index := i, field := fr.1,
                       left := fr.2 ls, right := fr.2 rs }], true)
        else acc)
      acc
    = (acc.1 ++ (fs.filter (fun fr => fr.2 ls ≠ fr.2 rs)).map
        (fun fr => { step_index := i, field := fr.1,
                     left := fr.2 ls, right := fr.2 rs }),
       acc.2 || fs.any (fun fr => fr.2 ls ≠ fr.2 rs)) := by
  induction fs with
  | nil => intro acc; simp
  | cons fr fs ih =>
    intro acc
    by_cases hm : fr.2 ls ≠ fr.2 rs
    · simp only [List.foldl_cons, if_pos hm, ih, List.filter_cons,
        List.any_cons]
      rw [if_pos (by simpa using hm)]
      simp [hm]
    · simp only [List.foldl_cons, if_neg hm, ih, List.filter_cons,
        List.any_cons]
      rw [if_neg (by simpa using hm)]
      simp [hm]

theorem stepFieldFold_eq (i : ℕ) (ls rs : EpisodeStep) :
    stepFieldFold i ls rs = (stepPairDiffs i ls rs, pairMismatch ls rs) := by
  rw [stepFieldFold, stepFieldFold_general i ls rs compareFields ([], false)]
  simp [stepPairDiffs, pairMismatch]

theorem diffLoop_general (ps : List (ℕ × (EpisodeStep × EpisodeStep))) :
    ∀ acc : List StepDiff × ℕ × ℕ,
    ps.foldl
      (fun acc p =>
        let d := stepFieldFold p.1 p.2.1 p.2.2
        (acc.1 ++ d.1,
         if d.2 then (acc.2.1, acc.2.2 + 1) else (acc.2.1 + 1, acc.2.2)))
      acc
    = (acc.1 ++ ps.flatMap (fun p => stepPairDiffs p.1 p.2.1 p.2.2),
       acc.2.1 + ps.countP (fun p => !(pairMismatch p.2.1 p.2.2)),
       acc.2.2 + ps.countP (fun p => pairMismatch p.2.1 p.2.2)) := by
  induction ps with
  | nil => intro acc; simp
  | cons p ps ih =>
    intro acc
    rw [List.foldl_cons]
    by_cases hm : pairMismatch p.2.1 p.2.2
    · rw [show (let d := stepFieldFold p.1 p.2.1 p.2.2
          (acc.1 ++ d.1,
           if d.2 then (acc.2.1, acc.2.2 + 1) else (acc.2.1 + 1, acc.2.2)))
          = (acc.1 ++ stepPairDiffs p.1 p.2.1 p.2.2, acc.2.1, acc.2.2 + 1) by
          simp [stepFieldFold_eq, hm]]
      rw [ih]
      simp [List.flatMap_cons, List.countP_cons, hm, List.append_assoc,
        Prod.ext_iff]
      try omega
    · rw [show (let d := stepFieldFold p.1 p.2.1 p.2.2
          (acc.1 ++ d.1,
           if d.2 then (acc.2.1, acc.2.2 + 1) else (acc.2.1 + 1, acc.2.2)))
          = (acc.1 ++ stepPairDiffs p.1 p.2.1 p.2.2, acc.2.1 + 1, acc.2.2) by
          simp [stepFieldFold_eq, hm]]
      rw [ih]
      simp [List.flatMap_cons, List.countP_cons, hm, List.append_assoc,
        Prod.ext_iff]
      try omega

theorem diffLoop_eq (ls rs : List EpisodeStep) :
    diffLoop ls rs
    = ((enumFrom 0 (ls.zip rs)).flatMap
         (fun p => stepPairDiffs p.1 p.2.1 p.2.2),
       (enumFrom 0 (ls.zip rs)).countP
         (fun p => !(pairMismatch p.2.1 p.2.2)),
       (enumFrom 0 (ls.zip rs)).countP
         (fun p => pairMismatch p.2.1 p.2.2)) := by
  rw [diffLoop, diffLoop_general]
  simp

theorem countP_not_add (p : α → Bool) (l : List α) :
    l.countP (fun a => !(p a)) + l.countP p = l.length := by
  induction l with
  | nil => rfl
  | cons x xs ih =>
    by_cases hx : p x <;> simp [List.countP_cons, hx] <;> omega

/-- C4: the diff of two stored episodes compares steps strictly by position
up to the shorter length over the fixed six-field set through their string
renderings (`None` standing for an absent value): its record list is exactly
one record per mismatching field of each compared position, `differing`
counts the compared positions with at least one mismatch and `matching` the
rest, they partition the compared range, and the extras are the clamped
length differences of which at most one is nonzero. -/
theorem C4_diff_positional (st : Store) (lid rid : String) (L R : Episode)
    (d : EpisodeDiff)
    (hL : getEp st lid = some L) (hR : getEp st rid = some R)
    (hd : diffEps st lid rid = some d) :
    d.step_diffs = (enumFrom 0 (L.steps.zip R.steps)).flatMap
      (fun p => stepPairDiffs p.1 p.2.1 p.2.2) ∧
    d.differing_steps = (enumFrom 0 (L.steps.zip R.steps)).countP
      (fun p => pairMismatch p.2.1 p.2.2) ∧
    d.matching_steps = (enumFrom 0 (L.steps.zip R.steps)).countP
      (fun p => !(pairMismatch p.2.1 p.2.2)) ∧
    d.matching_steps + d.differing_steps
      = min L.steps.length R.steps.length ∧
    (d.extra_left : ℤ) = max 0 ((L.steps.length : ℤ) - R.steps.length) ∧
    (d.extra_right : ℤ) = max 0 ((R.steps.length : ℤ) - L.steps.length) ∧
    (d.extra_left = 0 ∨ d.extra_right = 0) := by
  rw [diffEps, hL, hR] at hd
  injection hd with hd
  subst hd
  refine ⟨by simp [diffLoop_eq], by simp [diffLoop_eq],
    by simp [diffLoop_eq], ?_, ?_, ?_, ?_⟩
  · simp only [diffLoop_eq]
    rw [countP_not_add, enumFrom_length, List.length_zip]
  · exact Int.toNat_of_nonneg (le_max_left 0 _)
  · exact Int.toNat_of_nonneg (le_max_left 0 _)
  · rcases le_total L.steps.length R.steps.length with hle | hle
    · left
      rw [Int.toNat_eq_zero]
      exact max_le (le_refl 0) (by omega)
    · right
      rw [Int.toNat_eq_zero]
      exact max_le (le_refl 0) (by omega)

theorem C4_diff_positional_witness :
    getEp storeAB "id1" = some epA ∧ getEp storeAB "id2" = some epB ∧
    diffEps storeAB "id1" "id2" = some dAB ∧
    dAB.matching_steps + dAB.differing_steps
      = min epA.steps.length epB.steps.length ∧
    (dAB.extra_left = 0 ∨ dAB.extra_right = 0) :=
  ⟨rfl, rfl, rfl,
   (C4_diff_positional storeAB "id1" "id2" epA epB dAB rfl rfl rfl).2.2.2.1,
   (C4_diff_positional storeAB "id1" "id2" epA epB dAB rfl rfl
      rfl).2.2.2.2.2.2⟩

theorem stepPairDiffs_swap (i : ℕ) (ls rs : EpisodeStep) :
    stepPairDiffs i rs ls = (stepPairDiffs i ls rs).map swapRec := by
  rw [stepPairDiffs, stepPairDiffs, List.map_map]
  rw [List.filter_congr (l := compareFields)
    (fun fr _ => show (decide (fr.2 rs ≠ fr.2 ls))
        = (decide (fr.2 ls ≠ fr.2 rs)) by
      simp [ne_comm])]
  rfl

theorem enumFrom_map (f : α → β) (l : List α) :
    ∀ i, enumFrom i (l.map f) = (enumFrom i l).map (fun p => (p.1, f p.2)) := by
  induction l with
  | nil => intro i; rfl
  | cons x xs ih => intro i; simp [enumFrom, ih]

theorem diffRecords_swap (A B : List EpisodeStep) :
    (diffLoop B A).1 = ((diffLoop A B).1).map swapRec := by
  simp only [diffLoop_eq]
  rw [← List.zip_swap A B, enumFrom_map, List.flatMap_map, List.map_flatMap]
  refine congrArg _ (funext (fun p => ?_))
  exact stepPairDiffs_swap p.1 p.2.1 p.2.2

/-- C5: diff is anti-symmetric — swapping the two identifiers negates the
token, cost and duration deltas (cost through the 6-decimal rounding), and
produces exactly the same record list with each record's left and right
values exchanged (so the `step_index`/`field` pairs coincide). -/
theorem C5_diff_antisym (st : Store) (a b : String) (d1 d2 : EpisodeDiff)
    (hab : diffEps st a b = some d1) (hba : diffEps st b a = some d2) :
    d1.token_delta = - d2.token_delta ∧
    d1.cost_delta = - d2.cost_delta ∧
    d1.duration_delta = - d2.duration_delta ∧
    d2.step_diffs = d1.step_diffs.map swapRec := by
  cases hA : getEp st a with
  | none => rw [diffEps, hA] at hab; exact absurd hab (by simp)
  | some A =>
    cases hB : getEp st b with
    | none => rw [diffEps, hA, hB] at hab; exact absurd hab (by simp)
    | some B =>
      rw [diffEps, hA, hB] at hab
      rw [diffEps, hB, hA] at hba
      injection hab with hab
      injection hba with hba
      subst hab
      subst hba
      refine ⟨by show (B.total_tokens : ℤ) - A.total_tokens
                    = -((A.total_tokens : ℤ) - B.total_tokens)
                 ring,
              ?_,
              by show (B.total_duration_ms : ℤ) - A.total_duration_ms
                    = -((A.total_duration_ms : ℤ) - B.total_duration_ms)
                 ring,
              diffRecords_swap A.steps B.steps⟩
      show round6 (B.total_cost_usd - A.total_cost_usd)
        = - round6 (A.total_cost_usd - B.total_cost_usd)
      rw [show A.total_cost_usd - B.total_cost_usd
            = -(B.total_cost_usd - A.total_cost_usd) by ring, round6_neg]
      ring

theorem C5_diff_antisym_witness :
    diffEps storeAB "id1" "id2" = some dAB ∧
    diffEps storeAB "id2" "id1" = some dBA ∧
    dAB.token_delta = - dBA.token_delta ∧
    dAB.cost_delta = - dBA.cost_delta ∧
    dBA.step_diffs = dAB.step_diffs.map swapRec :=
  ⟨rfl, rfl,
   (C5_diff_antisym storeAB "id1" "id2" dAB dBA rfl rfl).1,
   (C5_diff_antisym storeAB "id1" "id2" dAB dBA rfl rfl).2.1,
   (C5_diff_antisym storeAB "id1" "id2" dAB dBA rfl rfl).2.2.2⟩

/-- C10: an empty string supplied as the agent or status filter is falsy in
Python, so `list`, `count` and `export_jsonl` add no WHERE clause for it and
behave exactly as if the filter were omitted. -/
theorem C10_empty_filter_as_omitted (st : Store)
    (agent status since until_ model provider tool : Option String)
    (limit offset : ℕ) :
    (listEps st (some "") status since until_ model provider tool limit offset
      = listEps st none status since until_ model provider tool limit offset) ∧
    (listEps st agent (some "") since until_ model provider tool limit offset
      = listEps st agent none since until_ model provider tool limit offset) ∧
    (countEps st (some "") status = countEps st none status) ∧
    (countEps st agent (some "") = countEps st agent none) ∧
    (exportJsonl st (some "") status since until_
      = exportJsonl st none status since until_) ∧
    (exportJsonl st agent (some "") since until_
      = exportJsonl st agent none since until_) := by
  refine ⟨?_, ?_, ?_, ?_, ?_, ?_⟩
  · have h := List.filter_congr (l := st.rows)
      (p := listWhere (some "") status since until_ model provider tool)
      (q := listWhere none status since until_ model provider tool)
      (fun r _ => by simp [listWhere, optClause])
    simp [listEps, h]
  · have h := List.filter_congr (l := st.rows)
      (p := listWhere agent (some "") since until_ model provider tool)
      (q := listWhere agent none since until_ model provider tool)
      (fun r _ => by simp [listWhere, optClause])
    simp [listEps, h]
  · exact congrArg List.length
      (List.filter_congr (fun r _ => by simp [optClause]))
  · exact congrArg List.length
      (List.filter_congr (fun r _ => by simp [optClause]))
  · have h := List.filter_congr (l := st.rows)
      (fun (r : Row) _ => show
        (optClause (some "") (fun a => r.agent_id = a) &&
         optClause status (fun s => r.status = s) &&
         optClauseDT since (fun s => strLeB s r.started_at) &&
         optClauseDT until_ (fun u => strLeB r.started_at u))
        = (optClause none (fun a => r.agent_id = a) &&
           optClause status (fun s => r.status = s) &&
           optClauseDT since (fun s => strLeB s r.started_at) &&
           optClauseDT until_ (fun u => strLeB r.started_at u))
        by simp [optClause])
    simp [exportJsonl, h]
  · have h := List.filter_congr (l := st.rows)
      (fun (r : Row) _ => show
        (optClause agent (fun a => r.agent_id = a) &&
         optClause (some "") (fun s => r.status = s) &&
         optClauseDT since (fun s => strLeB s r.started_at) &&
         optClauseDT until_ (fun u => strLeB r.started_at u))
        = (optClause agent (fun a => r.agent_id = a) &&
           optClause none (fun s => r.status = s) &&
           optClauseDT since (fun s => strLeB s r.started_at) &&
           optClauseDT until_ (fun u => strLeB r.started_at u))
        by simp [optClause])
    simp [exportJsonl, h]

theorem charListLe_refl : ∀ cs, charListLe cs cs = true := by
  intro cs
  induction cs with
  | nil => rfl
  | cons c cs ih => simp [charListLe, ih]

theorem charListLe_total : ∀ x y, (charListLe x y || charListLe y x) = true := by
  intro x
  induction x with
  | nil => intro y; simp [charListLe]
  | cons a as ih =>
    intro y
    cases y with
    | nil => simp [charListLe]
    | cons b bs =>
      by_cases hab : a = b
      · subst hab
        simpa [charListLe] using ih bs
      · rcases lt_or_gt_of_ne hab with h | h
        · simp [charListLe, hab, h]
        · simp [charListLe, hab, Ne.symm hab, not_lt_of_gt h, h]

theorem charListLe_trans : ∀ x y z, charListLe x y = true →
    charListLe y z = true → charListLe x z = true := by
  intro x
  induction x with
  | nil => intro y z _ _; rfl
  | cons a as ih =>
    intro y z hxy hyz
    cases y with
    | nil => exact absurd hxy (by simp [charListLe])
    | cons b bs =>
      cases z with
      | nil => exact absurd hyz (by simp [charListLe])
      | cons c cs =>
        by_cases hab : a = b <;> by_cases hbc : b = c
        · subst hab; subst hbc
          simp only [charListLe, if_pos rfl] at hxy hyz ⊢
          exact ih bs cs hxy hyz
        · subst hab
          have hlt : a < c := by
            simpa [charListLe, hbc] using hyz
          simp [charListLe, hbc, hlt]
        · subst hbc
          have hlt : a < b := by
            simpa [charListLe, hab] using hxy
          simp [charListLe, hab, hlt]
        · have h1 : a < b := by simpa [charListLe, hab] using hxy
          have h2 : b < c := by simpa [charListLe, hbc] using hyz
          have h3 : a < c := lt_trans h1 h2
          simp [charListLe, ne_of_lt h3, h3]

theorem strLeB_refl (s : String) : strLeB s s = true := charListLe_refl s.data

instance : IsTotal Row rowRel :=
  ⟨fun a b => by
    rcases Bool.or_eq_true_iff.mp
        (charListLe_total b.started_at.data a.started_at.data) with h | h
    · exact Or.inl h
    · exact Or.inr h⟩

instance : IsTrans Row rowRel :=
  ⟨fun a b c hab hbc =>
    charListLe_trans c.started_at.data b.started_at.data a.started_at.data
      hbc hab⟩

theorem filter_orderedInsert (k : String) (a : Row) (l : List Row) :
    (List.orderedInsert rowRel a l).filter (fun r => r.started_at = k)
      = if a.started_at = k
        then a :: l.filter (fun r => r.started_at = k)
        else l.filter (fun r => r.started_at = k) := by
  induction l with
  | nil =>
    by_cases ha : a.started_at = k <;>
      simp [List.orderedInsert, List.filter, ha]
  | cons b l ih =>
    by_cases hr : rowRel a b
    · rw [List.orderedInsert, if_pos hr]
      by_cases ha : a.started_at = k <;> simp [List.filter_cons, ha]
    · rw [List.orderedInsert, if_neg hr]
      by_cases ha : a.started_at = k
      · have hb : ¬ (b.started_at = k) := by
          intro hbk
          exact hr (by
            show strLeB b.started_at a.started_at = true
            rw [hbk, ha]
            exact strLeB_refl k)
        simp [List.filter_cons, hb, ih, ha]
      · simp [List.filter_cons, ih, ha]

theorem filter_insertionSort (k : String) : ∀ l : List Row,
    (List.insertionSort rowRel l).filter (fun r => r.started_at = k)
      = l.filter (fun r => r.started_at = k) := by
  intro l
  induction l with
  | nil => rfl
  | cons a l ih =>
    show (List.orderedInsert rowRel a (List.insertionSort rowRel l)).filter
        (fun r => r.started_at = k) = _
    rw [filter_orderedInsert]
    by_cases ha : a.started_at = k <;> simp [List.filter_cons, ha, ih]

/-- C7 (amended): with no filters and a limit at least the number of stored
episodes, `list` returns a summary of every created episode, in start
timestamp descending order produced by a stable sort — a permutation of the
rows, pairwise descending on `started_at`, and with each equal-timestamp
class kept in insertion order. -/
theorem C7_list_ordering (st : Store) (limit : ℕ)
    (h : st.rows.length ≤ limit) :
    listEps st none none none none none none none limit 0
      = (orderByStartedDesc st.rows).map rowToSummary ∧
    (orderByStartedDesc st.rows).Perm st.rows ∧
    (orderByStartedDesc st.rows).Sorted rowRel ∧
    (∀ k, (orderByStartedDesc st.rows).filter (fun r => r.started_at = k)
        = st.rows.filter (fun r => r.started_at = k)) := by
  refine ⟨?_, List.perm_insertionSort rowRel st.rows,
    List.sorted_insertionSort rowRel st.rows,
    fun k => filter_insertionSort k st.rows⟩
  have hfilter : st.rows.filter
      (listWhere none none none none none none none) = st.rows := by
    have : ∀ r ∈ st.rows,
        listWhere none none none none none none none r = true := by
      intro r _; rfl
    rw [List.filter_congr this, List.filter_true]
  have hlen : (orderByStartedDesc st.rows).length ≤ limit :=
    le_trans (le_of_eq (List.perm_insertionSort rowRel st.rows).length_eq) h
  simp only [listEps, hfilter, List.drop_zero]
  rw [List.take_of_length_le hlen]

theorem C7_list_ordering_witness :
    storeAB.rows.length ≤ 50 ∧
    listEps storeAB none none none none none none none 50 0
      = (orderByStartedDesc storeAB.rows).map rowToSummary ∧
    (orderByStartedDesc storeAB.rows).Perm storeAB.rows :=
  ⟨by decide, (C7_list_ordering storeAB 50 (by decide)).1,
   (C7_list_ordering storeAB 50 (by decide)).2.1⟩

/-- C7 counterexample: `list()` with no filters uses the Python default
`limit=50`, so a store of 51 episodes gets only 50 summaries back — the
51st created episode (`id50`) is absent from the result, refuting "returns
a summary of every created episode" as stated. -/
theorem C7_list_counterexample :
    store51.rows.length = 51 ∧
    (store51.rows.map (fun r => r.episode_id)).contains "id50" = true ∧
    (listDefault store51).length = 50 ∧
    ((listDefault store51).map (fun s => s.episode_id)).contains "id50"
      = false :=
  ⟨rfl, rfl, rfl, rfl⟩

theorem rowToEpisode_id (r : Row) (e : Episode) (h : rowToEpisode r = some e) :
    e.episode_id = r.episode_id := by
  obtain ⟨rid, rag, rstat, rsteps, rtools, rtt, rtc, rtd, rsc, rsa, rea,
    rmd⟩ := r
  cases rsteps <;> cases rtools <;>
    simp only [rowToEpisode, Option.some_bind, Option.none_bind] at h
  case jarr.jarr xs ys =>
    have h2 : (stepsOfArr xs).bind (fun steps =>
        (statusOfString rstat).bind (fun status =>
          (strListOfArr ys).bind (fun tools =>
            some (Episode.mk rid rag status steps tools rtt rtc rtd rsc rsa
              rea rmd)))) = some e := h
    rcases hA : stepsOfArr xs with _ | steps
    · rw [hA, Option.none_bind] at h2
      exact absurd h2 (by simp)
    · rw [hA, Option.some_bind] at h2
      rcases hB : statusOfString rstat with _ | status
      · rw [hB, Option.none_bind] at h2
        exact absurd h2 (by simp)
      · rw [hB, Option.some_bind] at h2
        rcases hC : strListOfArr ys with _ | tools
        · rw [hC, Option.none_bind] at h2
          exact absurd h2 (by simp)
        · rw [hC, Option.some_bind] at h2
          injection h2 with h2
          rw [← h2]
  all_goals exact absurd h (by simp)

theorem filterMap_rowToEpisode_ids (L : List Row)
    (h : ∀ r ∈ L, (rowToEpisode r).isSome = true) :
    (L.filterMap rowToEpisode).map (fun e => e.episode_id)
      = L.map (fun r => r.episode_id) := by
  induction L with
  | nil => rfl
  | cons r L ih =>
    have hr := h r (by simp)
    cases hcase : rowToEpisode r with
    | none => rw [hcase] at hr; exact absurd hr (by simp)
    | some e =>
      simp only [List.filterMap_cons, hcase, List.map_cons,
        rowToEpisode_id r e hcase, ih (fun x hx => h x (by simp [hx]))]

/-- C9: export applies the same agent/status/since/until filter semantics
and the same start-descending ordering as list, with no limit and no
offset, and yields full episode records: on any store whose rows all parse
(every store reachable through `save` does), the identifier sequence export
produces equals the one list produces for the same filters with a limit
covering the whole store and offset zero. -/
theorem C9_export_matches_list (st : Store)
    (agent status since until_ : Option String)
    (h : ∀ r ∈ st.rows, (rowToEpisode r).isSome = true) :
    (exportJsonl st agent status since until_).map (fun e => e.episode_id)
      = (listEps st agent status since until_ none none none
          st.rows.length 0).map (fun s => s.episode_id) := by
  have hpred := List.filter_congr (l := st.rows)
    (fun (r : Row) _ => show
      (optClause agent (fun a => r.agent_id = a) &&
       optClause status (fun s => r.status = s) &&
       optClauseDT since (fun s => strLeB s r.started_at) &&
       optClauseDT until_ (fun u => strLeB r.started_at u))
      = listWhere agent status since until_ none none none r
      by simp [listWhere, optClause])
  simp only [exportJsonl, listEps]
  rw [hpred]
  have hlenF : (orderByStartedDesc (st.rows.filter
      (listWhere agent status since until_ none none none))).length
      ≤ st.rows.length := by
    rw [orderByStartedDesc,
      (List.perm_insertionSort rowRel _).length_eq]
    exact List.length_filter_le _ _
  simp only [List.drop_zero]
  rw [List.take_of_length_le hlenF]
  have hmem : ∀ r ∈ orderByStartedDesc (st.rows.filter
      (listWhere agent status since until_ none none none)),
      (rowToEpisode r).isSome = true := by
    intro r hr
    have h1 : r ∈ st.rows.filter
        (listWhere agent status since until_ none none none) :=
      ((List.perm_insertionSort rowRel _).mem_iff).mp hr
    exact h r (List.mem_filter.mp h1).1
  rw [filterMap_rowToEpisode_ids _ hmem, List.map_map]
  rfl

theorem C9_export_matches_list_witness :
    (∀ r ∈ storeAB.rows, (rowToEpisode r).isSome = true) ∧
    (exportJsonl storeAB none none none none).map (fun e => e.episode_id)
      = (listEps storeAB none none none none none none none
          storeAB.rows.length 0).map (fun s => s.episode_id) :=
  ⟨by decide, C9_export_matches_list storeAB none none none none (by decide)⟩

set_option maxRecDepth 40000 in
/-- C3 counterexample: the model filter is a substring `LIKE` over the
serialized `steps` column, so an episode whose only occurrence of
`"model": "gpt-4"` is a metadata entry — no step has that model — is still
returned by `list(model="gpt-4")`, a false positive refuting the claimed
structural-match semantics. -/
theorem C3_filter_counterexample :
    save ⟨[]⟩ (Episode.mk "mx" "agent" EpisodeStatus.success [metaStep]
        [] 0 0 0 0 "2024-01-01T00:00:00+00:00" none JsonObj.nil)
      = some (metaStore, metaEp) ∧
    (listEps metaStore none none none none (some "gpt-4") none none 50 0).map
      (fun s => s.episode_id) = ["mx"] ∧
    metaEp.steps.all (fun s => decide (s.model ≠ some "gpt-4")) = true :=
  ⟨rfl, rfl, rfl⟩

theorem escapeChar_plain (c : Char) (h : plainChar c = true) :
    escapeChar c = String.mk [c] := by
  simp only [plainChar, Bool.and_eq_true, decide_eq_true_eq, ne_eq,
    decide_not, Bool.not_eq_true'] at h
  obtain ⟨⟨⟨⟨h1, h2⟩, h3⟩, h5⟩, h6⟩ := h
  have hq : ¬ (c = '"') := by simpa using h1
  have hb : ¬ (c = '\\') := by simpa using h2
  have hn : ¬ (c = '\n') := fun he => by subst he; simp at h5
  have hr : ¬ (c = '\r') := fun he => by subst he; simp at h5
  have ht : ¬ (c = '\t') := fun he => by subst he; simp at h5
  have hu : ¬ (c.toNat < 32 || 127 < c.toNat) = true := by
    simp only [Bool.or_eq_true, decide_eq_true_eq]
    omega
  rw [escapeChar, if_neg hq, if_neg hb, if_neg hn, if_neg hr, if_neg ht,
    if_neg hu]

theorem escList_plain (cs : List Char) (h : cs.all plainChar = true) :
    escList cs = String.mk cs := by
  induction cs with
  | nil => rfl
  | cons c cs ih =>
    have hc : plainChar c = true := by
      have := List.all_eq_true.mp h c (by simp)
      exact this
    have hcs : cs.all plainChar = true :=
      List.all_eq_true.mpr (fun x hx => List.all_eq_true.mp h x (by simp [hx]))
    rw [escList, escapeChar_plain c hc, ih hcs]
    rfl

theorem quoteStr_plain (s : String) (h : plainStr s = true) :
    quoteStr s = "\"" ++ s ++ "\"" := by
  obtain ⟨cs⟩ := s
  rw [quoteStr, escList_plain cs h]

theorem joinSep_mem_split (sep : String) (xs : List String) (x : String)
    (hx : x ∈ xs) : ∃ a b, joinSep sep xs = a ++ x ++ b := by
  induction xs with
  | nil => cases hx
  | cons y ys ih =>
    rcases List.mem_cons.mp hx with h | h
    · subst h
      cases ys with
      | nil => exact ⟨"", "", by simp [joinSep]⟩
      | cons z zs =>
        refine ⟨"", sep ++ joinSep sep (z :: zs), ?_⟩
        show x ++ sep ++ joinSep sep (z :: zs) = "" ++ x ++ _
        simp [String.append_assoc]
    · obtain ⟨a, b, hab⟩ := ih h
      cases ys with
      | nil => cases h
      | cons z zs =>
        refine ⟨y ++ sep ++ a, b, ?_⟩
        show y ++ sep ++ joinSep sep (z :: zs) = _
        rw [hab]
        simp [String.append_assoc]

theorem dumpsArr_ofList (l : List Json) :
    dumpsArr (arrOfList l) = l.map jsonDumps := by
  induction l with
  | nil => rfl
  | cons x xs ih => simp [arrOfList, dumpsArr, ih]

theorem dumpsObj_ofList (l : List (String × Json)) :
    dumpsObj (objOfList l)
      = l.map (fun kv => quoteStr kv.1 ++ ": " ++ jsonDumps kv.2) := by
  induction l with
  | nil => rfl
  | cons kv kvs ih => simp [objOfList, dumpsObj, ih]

theorem jsonDumps_arr_split (xs : List Json) (x : Json) (hx : x ∈ xs) :
    ∃ a b, jsonDumps (Json.jarr (arrOfList xs)) = a ++ jsonDumps x ++ b := by
  obtain ⟨a, b, hab⟩ := joinSep_mem_split ", " (xs.map jsonDumps)
    (jsonDumps x) (List.mem_map_of_mem jsonDumps hx)
  refine ⟨"[" ++ a, b ++ "]", ?_⟩
  rw [jsonDumps, dumpsArr_ofList, hab]
  simp [String.append_assoc]

theorem jsonDumps_obj_split (kvs : List (String × Json)) (k : String)
    (v : Json) (hkv : (k, v) ∈ kvs) :
    ∃ a b, jsonDumps (Json.jobj (objOfList kvs))
      = a ++ (quoteStr k ++ ": " ++ jsonDumps v) ++ b := by
  obtain ⟨a, b, hab⟩ := joinSep_mem_split ", "
    (kvs.map (fun kv => quoteStr kv.1 ++ ": " ++ jsonDumps kv.2))
    (quoteStr k ++ ": " ++ jsonDumps v)
    (by exact List.mem_map_of_mem _ hkv)
  refine ⟨"\x7b" ++ a, b ++ "\x7d", ?_⟩
  rw [jsonDumps, dumpsObj_ofList, hab]
  simp [String.append_assoc]

theorem likeMatches_empty (t : List Char) : likeMatches [] t = t.isEmpty := by
  simp [likeMatches]

theorem likeMatches_literal (core : List Char)
    (hcore : core.all (fun c => c ≠ '%') = true) :
    ∀ b, likeMatches (core ++ ['%']) (core ++ b) = true := by
  induction core with
  | nil =>
    intro b
    show likeMatches ['%'] b = true
    simp only [likeMatches, if_true]
    rw [List.any_eq_true]
    exact ⟨[], (List.mem_tails _ _).mpr List.nil_suffix, by rfl⟩
  | cons c core ih =>
    intro b
    have hc := List.all_eq_true.mp hcore c (by simp)
    simp only [ne_eq, decide_not, Bool.not_eq_true',
      decide_eq_false_iff_not] at hc
    have ihb := ih (List.all_eq_true.mpr
      (fun x hx => List.all_eq_true.mp hcore x (by simp [hx]))) b
    show likeMatches (c :: (core ++ ['%'])) (c :: (core ++ b)) = true
    by_cases hu : c = '_'
    · subst hu
      simp only [likeMatches, if_neg hc, if_pos rfl]
      exact ihb
    · simp only [likeMatches, if_neg hc, if_neg hu, Bool.and_eq_true,
        decide_eq_true_eq]
      exact ⟨by simp, ihb⟩

theorem likeMatches_pct (ps t a : List Char) (h : likeMatches ps t = true) :
    likeMatches ('%' :: ps) (a ++ t) = true := by
  simp only [likeMatches, if_true]
  rw [List.any_eq_true]
  exact ⟨t, (List.mem_tails _ _).mpr (List.suffix_append a t), h⟩

/-- `LIKE '%mid%'` matches any text with `mid` in the middle, when `mid`
holds no wildcard. -/
theorem likeStr_sandwich (mid a b : String)
    (hmid : mid.data.all (fun c => c ≠ '%') = true) :
    likeStr ("%" ++ mid ++ "%") (a ++ mid ++ b) = true := by
  rw [likeStr]
  have hp : ("%" ++ mid ++ "%").data = '%' :: (mid.data ++ ['%']) := by
    rw [String.data_append, String.data_append]
    rfl
  have ht : (a ++ mid ++ b).data = a.data ++ (mid.data ++ b.data) := by
    rw [String.data_append, String.data_append, List.append_assoc]
  rw [hp, ht]
  exact likeMatches_pct _ _ _ (likeMatches_literal mid.data hmid b.data)

theorem plain_nw (s : String) (h : plainStr s = true) :
    s.data.all (fun c => c ≠ '%') = true := by
  rw [plainStr, List.all_eq_true] at h
  rw [List.all_eq_true]
  intro c hc
  have hp := h c hc
  simp only [plainChar, Bool.and_eq_true] at hp
  obtain ⟨⟨⟨⟨h1, h2⟩, h3⟩, h5⟩, h6⟩ := hp
  exact h3

theorem sandwich_nw (pre suf m : String)
    (hpre : pre.data.all (fun c => c ≠ '%') = true)
    (hsuf : suf.data.all (fun c => c ≠ '%') = true)
    (hm : plainStr m = true) :
    (pre ++ m ++ suf).data.all (fun c => c ≠ '%') = true := by
  simp only [String.data_append, List.all_append, Bool.and_eq_true]
  exact ⟨⟨hpre, plain_nw m hm⟩, hsuf⟩

/-- The serialized text of a JSON object contains `"key": "value"` verbatim
for each string entry whose value is plain. -/
theorem jsonText_kv_str_split (kvs : List (String × Json)) (k m : String)
    (hm : plainStr m = true) (hkv : (k, Json.jstr m) ∈ kvs) :
    ∃ a b, jsonDumps (Json.jobj (objOfList kvs))
      = a ++ ((quoteStr k ++ ": \"") ++ m ++ "\"") ++ b := by
  obtain ⟨a, b, hab⟩ := jsonDumps_obj_split kvs k (Json.jstr m) hkv
  refine ⟨a, b, ?_⟩
  rw [hab]
  have h1 : jsonDumps (Json.jstr m) = quoteStr m := rfl
  rw [h1, quoteStr_plain m hm]
  have h3 : quoteStr k ++ ": " ++ ("\"" ++ m ++ "\"")
      = (quoteStr k ++ ": \"") ++ m ++ "\"" := by
    have h2 : (": \"" : String) = ": " ++ "\"" := rfl
    rw [h2]
    simp only [String.append_assoc]
  rw [h3]

/-- A step whose `model` is exactly `m` makes the serialized `steps` column
pass the `LIKE` model clause, for any plain `m`. -/
theorem modelClause_sound (e : Episode) (m : String)
    (hm : plainStr m = true) (s : EpisodeStep) (hs : s ∈ e.steps)
    (hsm : s.model = some m) :
    modelClause (episodeToRow e) m = true := by
  have hv : optStrJson s.model = Json.jstr m := by rw [hsm]; rfl
  have hmem : ("model", Json.jstr m) ∈ stepFields s := by
    rw [stepFields, ← hv]
    exact List.mem_cons_of_mem _ (List.mem_cons_of_mem _ (List.mem_cons_of_mem _
      (List.mem_cons_of_mem _ (List.mem_cons_self _ _))))
  obtain ⟨a, b, hab⟩ := jsonText_kv_str_split (stepFields s) "model" m hm hmem
  have hq : (quoteStr "model" ++ ": \"") = "\"model\": \"" := rfl
  rw [hq] at hab
  have hstep : jsonDumps (stepToJson s)
      = a ++ ("\"model\": \"" ++ m ++ "\"") ++ b := hab
  have hmemJ : stepToJson s ∈ e.steps.map stepToJson := List.mem_map_of_mem _ hs
  obtain ⟨A, B, hAB⟩ :=
    jsonDumps_arr_split (e.steps.map stepToJson) (stepToJson s) hmemJ
  have htext : jsonDumps (episodeToRow e).steps
      = (A ++ a) ++ ("\"model\": \"" ++ m ++ "\"") ++ (b ++ B) := by
    show jsonDumps (Json.jarr (arrOfList (e.steps.map stepToJson)))
      = (A ++ a) ++ ("\"model\": \"" ++ m ++ "\"") ++ (b ++ B)
    rw [hAB, hstep]
    simp only [String.append_assoc]
  rw [modelClause]
  have hpat : ("%\"model\": \"" ++ m ++ "\"%")
      = "%" ++ ("\"model\": \"" ++ m ++ "\"") ++ "%" := by
    have h1 : ("\"%" : String) = "\"" ++ "%" := rfl
    have h2 : ("%\"model\": \"" : String) = "%" ++ "\"model\": \"" := rfl
    rw [h1, h2]
    simp only [String.append_assoc]
  rw [hpat, htext]
  exact likeStr_sandwich _ _ _
    (sandwich_nw ("\"model\": \"") ("\"") m (by decide) (by decide) hm)

/-- A step whose `provider` is exactly `p` makes the serialized `steps`
column pass the `LIKE` provider clause, for any plain `p`. -/
theorem providerClause_sound (e : Episode) (p : String)
    (hp : plainStr p = true) (s : EpisodeStep) (hs : s ∈ e.steps)
    (hsp : s.provider = some p) :
    providerClause (episodeToRow e) p = true := by
  have hv : optStrJson s.provider = Json.jstr p := by rw [hsp]; rfl
  have hmem : ("provider", Json.jstr p) ∈ stepFields s := by
    rw [stepFields, ← hv]
    exact List.mem_cons_of_mem _ (List.mem_cons_of_mem _ (List.mem_cons_of_mem _
      (List.mem_cons_of_mem _ (List.mem_cons_of_mem _ (List.mem_cons_self _ _)))))
  obtain ⟨a, b, hab⟩ := jsonText_kv_str_split (stepFields s) "provider" p hp hmem
  have hq : (quoteStr "provider" ++ ": \"") = "\"provider\": \"" := rfl
  rw [hq] at hab
  have hstep : jsonDumps (stepToJson s)
      = a ++ ("\"provider\": \"" ++ p ++ "\"") ++ b := hab
  have hmemJ : stepToJson s ∈ e.steps.map stepToJson := List.mem_map_of_mem _ hs
  obtain ⟨A, B, hAB⟩ :=
    jsonDumps_arr_split (e.steps.map stepToJson) (stepToJson s) hmemJ
  have htext : jsonDumps (episodeToRow e).steps
      = (A ++ a) ++ ("\"provider\": \"" ++ p ++ "\"") ++ (b ++ B) := by
    show jsonDumps (Json.jarr (arrOfList (e.steps.map stepToJson)))
      = (A ++ a) ++ ("\"provider\": \"" ++ p ++ "\"") ++ (b ++ B)
    rw [hAB, hstep]
    simp only [String.append_assoc]
  rw [providerClause]
  have hpat : ("%\"provider\": \"" ++ p ++ "\"%")
      = "%" ++ ("\"provider\": \"" ++ p ++ "\"") ++ "%" := by
    have h1 : ("\"%" : String) = "\"" ++ "%" := rfl
    have h2 : ("%\"provider\": \"" : String) = "%" ++ "\"provider\": \"" := rfl
    rw [h1, h2]
    simp only [String.append_assoc]
  rw [hpat, htext]
  exact likeStr_sandwich _ _ _
    (sandwich_nw ("\"provider\": \"") ("\"") p (by decide) (by decide) hp)

/-- A tool present in `tools_used` makes the serialized `tools_used` column
pass the `LIKE` tool clause, for any plain tool name. -/
theorem toolClause_sound (e : Episode) (t : String)
    (ht : plainStr t = true) (htl : t ∈ e.tools_used) :
    toolClause (episodeToRow e) t = true := by
  have hmemJ : Json.jstr t ∈ e.tools_used.map Json.jstr :=
    List.mem_map_of_mem _ htl
  obtain ⟨A, B, hAB⟩ :=
    jsonDumps_arr_split (e.tools_used.map Json.jstr) (Json.jstr t) hmemJ
  have hq : jsonDumps (Json.jstr t) = "\"" ++ t ++ "\"" := by
    have h1 : jsonDumps (Json.jstr t) = quoteStr t := rfl
    rw [h1, quoteStr_plain t ht]
  rw [hq] at hAB
  have htext : jsonDumps (episodeToRow e).tools_used
      = A ++ ("\"" ++ t ++ "\"") ++ B := hAB
  rw [toolClause]
  have hpat : ("%\"" ++ t ++ "\"%") = "%" ++ ("\"" ++ t ++ "\"") ++ "%" := by
    have h1 : ("%\"" : String) = "%" ++ "\"" := rfl
    have h2 : ("\"%" : String) = "\"" ++ "%" := rfl
    rw [h1, h2]
    simp only [String.append_assoc]
  rw [hpat, htext]
  exact likeStr_sandwich _ _ _
    (sandwich_nw ("\"") ("\"") t (by decide) (by decide) ht)

/-- C3 (amended): the model/provider/tool filters of `list` are substring
(`LIKE`) tests over the serialized JSON text of the `steps`/`tools_used`
columns, not structural matches. In the sound direction they never miss a
structural hit: for a wildcard-free plainly-serialized filter value, an
episode one of whose steps has exactly that model, one of whose steps has
exactly that provider, or whose `tools_used` holds exactly that tool,
passes the corresponding WHERE clause of `list`. The claimed converse is
false: the value occurring elsewhere in the serialized text (metadata,
summaries) also matches. -/
theorem C3_filter_structural_sound (e : Episode) (m p t : String)
    (hm : plainStr m = true) (hp : plainStr p = true)
    (ht : plainStr t = true) :
    ((∃ s ∈ e.steps, s.model = some m) →
      listWhere none none none none (some m) none none (episodeToRow e)
        = true) ∧
    ((∃ s ∈ e.steps, s.provider = some p) →
      listWhere none none none none none (some p) none (episodeToRow e)
        = true) ∧
    (t ∈ e.tools_used →
      listWhere none none none none none none (some t) (episodeToRow e)
        = true) := by
  refine ⟨?_, ?_, ?_⟩
  · rintro ⟨s, hs, hsm⟩
    have hcl := modelClause_sound e m hm s hs hsm
    simp [listWhere, optClause, optClauseDT, hcl]
  · rintro ⟨s, hs, hsp⟩
    have hcl := providerClause_sound e p hp s hs hsp
    simp [listWhere, optClause, optClauseDT, hcl]
  · intro htl
    have hcl := toolClause_sound e t ht htl
    simp [listWhere, optClause, optClauseDT, hcl]

/-- Witness: `epA` has a step with model `gpt-4`, a step with provider
`openai`, and tool `web_search` in its `tools_used`; each of the three
filters keeps its row. -/
theorem C3_filter_structural_sound_witness :
    (plainStr "gpt-4" = true ∧ plainStr "openai" = true ∧
      plainStr "web_search" = true) ∧
    listWhere none none none none (some "gpt-4") none none (episodeToRow epA)
      = true ∧
    listWhere none none none none none (some "openai") none (episodeToRow epA)
      = true ∧
    listWhere none none none none none none (some "web_search")
      (episodeToRow epA) = true := by
  have h := C3_filter_structural_sound epA "gpt-4" "openai" "web_search"
    (by decide) (by decide) (by decide)
  have hsteps : epA.steps = [stepA, stepB] := rfl
  have htools : epA.tools_used = ["web_search"] := rfl
  refine ⟨⟨by decide, by decide, by decide⟩, ?_, ?_, ?_⟩
  · exact h.1 ⟨stepA, by rw [hsteps]; exact List.mem_cons_self _ _, rfl⟩
  · exact h.2.1 ⟨stepA, by rw [hsteps]; exact List.mem_cons_self _ _, rfl⟩
  · exact h.2.2 (by rw [htools]; exact List.mem_cons_self _ _)
